import Mathlib

/-!
Verification development for the Yulu bike-sharing case-study pipeline
(src/data_processing.py and src/plots.py).

The rental-record table is modelled as an ordered association list of named
columns of cells.  Machine floats are modelled as exact rationals (binary
floats round-trip exactly through text, so exact arithmetic is faithful for
the properties considered here); missing values (NaN / NaT / empty field)
are one marker `Cell.na`.
-/

set_option maxHeartbeats 1000000

namespace Yulu

/-- A calendar timestamp as produced by parsing the datetime column. -/
structure DateTime where
  year : Nat
  month : Nat
  day : Nat
  hour : Nat
  minute : Nat
  second : Nat
deriving DecidableEq, Repr

/-- One cell of the rental-record table. -/
inductive Cell where
  | int (z : Int)
  | float (q : Rat)
  | str (s : String)
  | dt (d : DateTime)
  | date (y m d : Nat)
  | na
deriving DecidableEq, Repr

/-- The rental-record table: an ordered list of named columns.  Column update
keeps the column position; a fresh column is appended at the end, matching
dataframe assignment semantics. -/
structure Table where
  cols : List (String × List Cell)
deriving DecidableEq, Repr

def colNames (t : Table) : List String := t.cols.map Prod.fst

def hasColAux (c : String) : List (String × List Cell) → Bool
  | [] => false
  | p :: l => p.1 == c || hasColAux c l

/-- Membership test of the column index (c in df.columns). -/
def hasCol (t : Table) (c : String) : Bool := hasColAux c t.cols

def getColAux (c : String) : List (String × List Cell) → List Cell
  | [] => []
  | p :: l => if p.1 == c then p.2 else getColAux c l

/-- Column selection df[c] (first match; dataframe column names are
unique). -/
def getCol (t : Table) (c : String) : List Cell := getColAux c t.cols

def setColAux (c : String) (v : List Cell) : List (String × List Cell) → List (String × List Cell)
  | [] => [(c, v)]
  | p :: l => if p.1 == c then (c, v) :: l else p :: setColAux c v l

/-- Column assignment df[c] = v: an existing column is replaced in place,
a fresh column is appended at the end. -/
def setCol (t : Table) (c : String) (v : List Cell) : Table := ⟨setColAux c v t.cols⟩

/-! ### Decimal text: digits, integers, fractions

The CSV artifact model serialises and parses cells with the functions below;
both directions are definitions of this development, so the round-trip
properties are provable. -/

def digitChar (n : Nat) : Char :=
  if n = 0 then '0' else if n = 1 then '1' else if n = 2 then '2' else if n = 3 then '3'
  else if n = 4 then '4' else if n = 5 then '5' else if n = 6 then '6' else if n = 7 then '7'
  else if n = 8 then '8' else '9'

def charVal? (c : Char) : Option Nat :=
  if c = '0' then some 0 else if c = '1' then some 1 else if c = '2' then some 2
  else if c = '3' then some 3 else if c = '4' then some 4 else if c = '5' then some 5
  else if c = '6' then some 6 else if c = '7' then some 7 else if c = '8' then some 8
  else if c = '9' then some 9 else none

/-- Decimal rendering, most significant digit first; fuelled structural
recursion (any fuel above the digit count gives the value). -/
def natToDigitsAux : Nat → Nat → List Char
  | 0, _ => []
  | fuel + 1, n =>
    if n < 10 then [digitChar n]
    else natToDigitsAux fuel (n / 10) ++ [digitChar (n % 10)]

/-- Decimal rendering of a natural number, most significant digit first. -/
def natToDigits (n : Nat) : List Char := natToDigitsAux (n + 1) n

def digitsAux (a : Option Nat) (c : Char) : Option Nat :=
  match a, charVal? c with
  | some n, some d => some (n * 10 + d)
  | _, _ => none

def digitsToNat? (cs : List Char) : Option Nat :=
  if cs.isEmpty then none else cs.foldl digitsAux (some 0)

def charsToInt? : List Char → Option Int
  | [] => none
  | c :: rest =>
    if c = '-' then (digitsToNat? rest).map (fun n => -(n : Int))
    else (digitsToNat? (c :: rest)).map (fun n => (n : Int))

def intToChars (z : Int) : List Char :=
  if z < 0 then '-' :: natToDigits z.natAbs else natToDigits z.natAbs

def splitOnChar (sep : Char) : List Char → List (List Char)
  | [] => [[]]
  | c :: cs =>
    match splitOnChar sep cs with
    | [] => [[c]]
    | h :: tl => if c = sep then [] :: h :: tl else (c :: h) :: tl

/-- Value of the decimal text a.b: integer part text `a` (possibly signed),
fraction digit text `b`. -/
def decimalVal? (a b : List Char) : Option Rat :=
  match charsToInt? a, digitsToNat? b with
  | some z, some f =>
      let mag : Rat := (z.natAbs : Rat) + (f : Rat) / ((10 : Rat) ^ b.length)
      some (if a.head? = some '-' then -mag else mag)
  | _, _ => none

/-- Plain numeric text: a signed integer or a decimal a.b. -/
def decChars? (cs : List Char) : Option Rat :=
  match splitOnChar '.' cs with
  | [x, y] => decimalVal? x y
  | [x] => (charsToInt? x).map (fun z => (z : Rat))
  | _ => none

/-- Numeric text as found in the CSV artifact: plain numeric text, or the
exact fraction encoding a/b used for non-terminating rational values. -/
def floatChars? (cs : List Char) : Option Rat :=
  match splitOnChar '/' cs with
  | [a, b] =>
    match charsToInt? a, digitsToNat? b with
    | some z, some d => if d = 0 then none else some ((z : Rat) / (d : Rat))
    | _, _ => none
  | [a] => decChars? a
  | _ => none

def dateChars (y m d : Nat) : List Char :=
  natToDigits y ++ ('-' :: (natToDigits m ++ ('-' :: natToDigits d)))

def timeChars (h mi s : Nat) : List Char :=
  natToDigits h ++ (':' :: (natToDigits mi ++ (':' :: natToDigits s)))

def dtChars (d : DateTime) : List Char :=
  dateChars d.year d.month d.day ++ (' ' :: timeChars d.hour d.minute d.second)

def parseDateChars? (cs : List Char) : Option (Nat × Nat × Nat) :=
  match splitOnChar '-' cs with
  | [a, b, c] =>
    match digitsToNat? a, digitsToNat? b, digitsToNat? c with
    | some y, some mo, some d => some (y, mo, d)
    | _, _, _ => none
  | _ => none

def parseTimeChars? (cs : List Char) : Option (Nat × Nat × Nat) :=
  match splitOnChar ':' cs with
  | [a, b, c] =>
    match digitsToNat? a, digitsToNat? b, digitsToNat? c with
    | some h, some mi, some s => some (h, mi, s)
    | _, _, _ => none
  | _ => none

/-- Parse timestamp text, date-only or date plus time-of-day. -/
def parseDTChars? (cs : List Char) : Option DateTime :=
  match splitOnChar ' ' cs with
  | [d] => (parseDateChars? d).map (fun p => ⟨p.1, p.2.1, p.2.2, 0, 0, 0⟩)
  | [d, t] =>
    match parseDateChars? d, parseTimeChars? t with
    | some p, some q => some ⟨p.1, p.2.1, p.2.2, q.1, q.2.1, q.2.2⟩
    | _, _ => none
  | _ => none

/-! ### Numeric column helpers: coercion, median, quantile bins -/

/-- pandas to_numeric with errors=coerce, on one cell: numbers pass through
(as floats), numeric text parses, everything else becomes the missing
marker. -/
def toNumCell : Cell → Cell
  | .int z => .float (z : Rat)
  | .float q => .float q
  | .str s => match decChars? s.data with
    | some q => .float q
    | none => .na
  | _ => .na

def cellNums (cs : List Cell) : List Rat :=
  cs.filterMap (fun c => match c with
    | .int z => some ((z : Rat))
    | .float q => some q
    | _ => none)

def insertQ (x : Rat) : List Rat → List Rat
  | [] => [x]
  | y :: ys => if x ≤ y then x :: y :: ys else y :: insertQ x ys

def sortQ (l : List Rat) : List Rat := l.foldr insertQ []

/-- Median as pandas computes it over the non-missing values: middle element
for odd length, mean of the two middle elements for even length, undefined
for an empty list. -/
def medianQ (l : List Rat) : Option Rat :=
  let s := sortQ l
  let n := s.length
  if n = 0 then none
  else if n % 2 = 1 then some (s.getD (n / 2) 0)
  else some ((s.getD (n / 2 - 1) 0 + s.getD (n / 2) 0) / 2)

/-- Linear-interpolation quantile of a sorted nonempty list at p in [0, 1],
as numpy computes it. -/
def quantileAt (s : List Rat) (p : Rat) : Rat :=
  let n := s.length
  let h : Rat := p * ((n : Rat) - 1)
  let lo : Nat := h.floor.toNat
  let a := s.getD lo 0
  let b := s.getD (lo + 1) a
  a + (h - (h.floor : Rat)) * (b - a)

def qcutEdges (xs : List Rat) (q : Nat) : List Rat :=
  let s := sortQ xs
  (List.range (q + 1)).map (fun i => quantileAt s ((i : Rat) / (q : Rat)))

def distinctQ : List Rat → Bool
  | [] => true
  | x :: xs => !(xs.contains x) && distinctQ xs

/-- Success condition of pd.qcut: some numeric values and pairwise distinct
quantile edges (pd.qcut raises ValueError otherwise). -/
def qcutOK (cells : List Cell) (q : Nat) : Bool :=
  let xs := cellNums cells
  !xs.isEmpty && distinctQ (qcutEdges xs q)

/-- Bin index for a value: number of internal right edges strictly below it
(bins are right-closed, lowest included). -/
def binIdx (edges : List Rat) (v : Rat) : Nat :=
  ((edges.drop 1).dropLast).countP (fun e => decide (e < v))

/-- pd.qcut over a cell column: label cells for numeric values, missing
marker preserved; fails exactly when the bin edges are not unique. -/
def qcut (cells : List Cell) (q : Nat) (labels : List String) : Except String (List Cell) :=
  if qcutOK cells q then
    let edges := qcutEdges (cellNums cells) q
    .ok (cells.map (fun c => match c with
      | .int z => .str (labels.getD (binIdx edges ((z : Rat))) "")
      | .float x => .str (labels.getD (binIdx edges x) "")
      | _ => .na))
  else .error "Bin edges must be unique"

/-! ### Calendar arithmetic for the weekday-derived columns -/

/-- Days since 1970-01-01 (civil-calendar algorithm). -/
def daysFromCivil (y m d : Nat) : Int :=
  let yy : Int := (y : Int) - (if m ≤ 2 then 1 else 0)
  let era : Int := yy / 400
  let yoe : Int := yy - era * 400
  let mp : Int := ((m : Int) + 9) % 12
  let doy : Int := (153 * mp + 2) / 5 + (d : Int) - 1
  let doe : Int := yoe * 365 + yoe / 4 - yoe / 100 + doy
  era * 146097 + doe - 719468

/-- Weekday with Monday = 0, as pandas Series.dt.weekday reports it
(1970-01-01 is a Thursday). -/
def weekdayMon0 (y m d : Nat) : Nat := ((daysFromCivil y m d + 3) % 7).toNat

/-- Weekday name as pandas Series.dt.day_name reports it. -/
def dayName (w : Nat) : String :=
  if w = 0 then "Monday" else if w = 1 then "Tuesday" else if w = 2 then "Wednesday"
  else if w = 3 then "Thursday" else if w = 4 then "Friday" else if w = 5 then "Saturday"
  else "Sunday"

/-! ### src/data_processing.py — basic_clean -/

/-- pd.to_datetime with errors=coerce on one cell of the datetime column:
text parses to a timestamp or becomes missing; parsed timestamps pass
through. -/
def toDatetimeCell : Cell → Cell
  | .str s => match parseDTChars? s.data with
    | some d => .dt d
    | none => .na
  | .dt d => .dt d
  | _ => .na

def tableNRows (t : Table) : Nat :=
  match t.cols with
  | [] => 0
  | p :: _ => p.2.length

def tableRow (t : Table) (i : Nat) : List Cell := t.cols.map (fun p => p.2.getD i .na)

def tableRows (t : Table) : List (List Cell) := (List.range (tableNRows t)).map (tableRow t)

def dedupAux : List (List Cell) → List (List Cell) → List (List Cell)
  | _, [] => []
  | seen, r :: rs => if r ∈ seen then dedupAux seen rs else r :: dedupAux (r :: seen) rs

def fromRows (names : List String) (rows : List (List Cell)) : Table :=
  ⟨names.enum.map (fun p => (p.2, rows.map (fun r => r.getD p.1 .na)))⟩

/-- drop_duplicates().reset_index(drop=True): remove exact duplicate rows,
keeping first occurrences, and renumber contiguously. -/
def drop_duplicates (t : Table) : Table :=
  fromRows (colNames t) (dedupAux [] (tableRows t))

def isSpaceC (c : Char) : Bool := c = ' ' || c = '\t' || c = '\n' || c = '\r'

/-- Python str.strip of whitespace on both ends. -/
def trimChars (cs : List Char) : List Char :=
  ((cs.dropWhile isSpaceC).reverse.dropWhile isSpaceC).reverse

/-- Column-name normalisation c.strip().lower(). -/
def normName (s : String) : String := ⟨(trimChars s.data).map Char.toLower⟩

/-- Standard cleaning: lowercase and trim column names, parse the datetime
column when present, drop duplicate rows. -/
def basic_clean (t : Table) : Table :=
  let t1 : Table := ⟨t.cols.map (fun p => (normName p.1, p.2))⟩
  let t2 : Table :=
    if hasCol t1 "datetime"
    then setCol t1 "datetime" ((getCol t1 "datetime").map toDatetimeCell)
    else t1
  drop_duplicates t2

/-! ### src/data_processing.py — impute_and_cast -/

def numeric_cols : List String :=
  ["temp", "atemp", "humidity", "windspeed", "casual", "registered", "count"]

def cat_cols : List String := ["season", "weather", "workingday", "holiday"]

/-- Numeric imputation of one column: coerce to numeric, take the column
median (zero when it is undefined), fill missing entries with it. -/
def imputeNumCol (cs : List Cell) : List Cell :=
  let ys := cs.map toNumCell
  let med : Rat := (medianQ (cellNums ys)).getD 0
  ys.map (fun c => if c = .na then .float med else c)

/-- Truncation toward zero, as numpy astype(int) on floats. -/
def ratTrunc (q : Rat) : Int := if q < 0 then -((-q).floor) else q.floor

/-- Categorical cast of one column: coerce to numeric, fill missing with
zero, cast to integer. -/
def castCatCol (cs : List Cell) : List Cell :=
  (cs.map toNumCell).map (fun c => match c with
    | .float q => .int (ratTrunc q)
    | _ => .int 0)

def updCol (t : Table) (c : String) (f : List Cell → List Cell) : Table :=
  if hasCol t c then setCol t c (f (getCol t c)) else t

/-- Cast the numeric columns and impute missing values with medians, then
cast the categorical code columns to integers (impute_and_cast). -/
def impute_and_cast (t : Table) : Table :=
  cat_cols.foldl (fun u c => updCol u c castCatCol)
    (numeric_cols.foldl (fun u c => updCol u c imputeNumCol) t)

/-! ### src/data_processing.py — feature_engineering -/

def season_map : List (Int × String) :=
  [(1, "spring"), (2, "summer"), (3, "fall"), (4, "winter")]

def weather_map : List (Int × String) :=
  [(1, "clear"), (2, "mist/cloudy"), (3, "light_precip"), (4, "heavy_precip")]

/-- Series.map over a code→name dict followed by fillna("unknown"): integer
codes (and whole floats, which hash equal to the integer keys) look the dict
up; unmapped codes and missing values become "unknown". -/
def mapCode (m : List (Int × String)) : Cell → Cell
  | .int z =>
    match m.lookup z with
    | some s => .str s
    | none => .str "unknown"
  | .float q =>
    if q.den = 1 then
      match m.lookup q.num with
      | some s => .str s
      | none => .str "unknown"
    else .str "unknown"
  | _ => .str "unknown"

/-- Series.dt.hour; after basic_clean the datetime column holds only parsed
timestamps and missing markers, other cells map to the missing marker. -/
def dtHour : Cell → Cell
  | .dt d => .int ((d.hour : Int))
  | _ => .na

def dtDayName : Cell → Cell
  | .dt d => .str (dayName (weekdayMon0 d.year d.month d.day))
  | _ => .na

def dtWeekday : Cell → Cell
  | .dt d => .int ((weekdayMon0 d.year d.month d.day : Int))
  | _ => .na

def dtMonth : Cell → Cell
  | .dt d => .int ((d.month : Int))
  | _ => .na

def dtYear : Cell → Cell
  | .dt d => .int ((d.year : Int))
  | _ => .na

def dtDate : Cell → Cell
  | .dt d => .date d.year d.month d.day
  | _ => .na

def mapColInto (t : Table) (src dst : String) (f : Cell → Cell) : Table :=
  setCol t dst ((getCol t src).map f)

/-- The time-based block of feature_engineering: six columns derived from
the datetime column whenever it exists (no target-absence guard). -/
def fe_datetime (t : Table) : Table :=
  if hasCol t "datetime" then
    let ta := mapColInto t "datetime" "hour" dtHour
    let tb := mapColInto ta "datetime" "day_of_week" dtDayName
    let tc := mapColInto tb "datetime" "weekday" dtWeekday
    let td := mapColInto tc "datetime" "month" dtMonth
    let te := mapColInto td "datetime" "year" dtYear
    mapColInto te "datetime" "date" dtDate
  else t

def fe_season (t : Table) : Table :=
  if hasCol t "season" then mapColInto t "season" "season_label" (mapCode season_map) else t

def fe_weather (t : Table) : Table :=
  if hasCol t "weather" then mapColInto t "weather" "weather_label" (mapCode weather_map) else t

/-- Pairwise Series addition for the count reconstruction. -/
def addCell : Cell → Cell → Cell
  | .int a, .int b => .int (a + b)
  | .int a, .float b => .float ((a : Rat) + b)
  | .float a, .int b => .float (a + (b : Rat))
  | .float a, .float b => .float (a + b)
  | .str a, .str b => .str (a ++ b)
  | _, _ => .na

/-- Reconstruct count as registered+casual, only when count is absent and
both addends are present. -/
def fe_count (t : Table) : Table :=
  if !hasCol t "count" && (hasCol t "registered" && hasCol t "casual") then
    setCol t "count" (List.zipWith addCell (getCol t "registered") (getCol t "casual"))
  else t

def fe_temp (t : Table) : Except String Table :=
  if hasCol t "temp" && !hasCol t "temp_category" then
    (qcut (getCol t "temp") 4 ["cold", "mild", "warm", "hot"]).map (setCol t "temp_category")
  else .ok t

def fe_atemp (t : Table) : Except String Table :=
  if hasCol t "atemp" && !hasCol t "atemp_category" then
    (qcut (getCol t "atemp") 4 ["cold", "mild", "warm", "hot"]).map (setCol t "atemp_category")
  else .ok t

/-- pd.cut with edges (-1, 30], (30, 60], (60, 100]; values outside every
bin, and missing values, map to the missing marker. -/
def humidityBinQ (q : Rat) : Cell :=
  if q ≤ -1 then .na
  else if q ≤ 30 then .str "low"
  else if q ≤ 60 then .str "medium"
  else if q ≤ 100 then .str "high"
  else .na

def humidityBin : Cell → Cell
  | .int z => humidityBinQ ((z : Rat))
  | .float q => humidityBinQ q
  | _ => .na

def fe_humidity (t : Table) : Table :=
  if hasCol t "humidity" && !hasCol t "humidity_category" then
    setCol t "humidity_category" ((getCol t "humidity").map humidityBin)
  else t

/-- Series.replace(0, r): cells equal to zero become r. -/
def replaceZero (r : Cell) (c : Cell) : Cell :=
  if c = .int 0 ∨ c = .float 0 then r else c

/-- Zero entries replaced by the median of the original (pre-replacement)
column; an undefined median fills with the missing marker, as
Series.replace(0, nan) would. -/
def zeroAdjusted (ws : List Cell) : List Cell :=
  ws.map (replaceZero (match medianQ (cellNums ws) with
    | some m => .float m
    | none => .na))

/-- The wind-speed block: zero entries replaced by the median of the
original column (written back into the windspeed column itself), then
three-way quantile binning. -/
def fe_windspeed (t : Table) : Except String Table :=
  if hasCol t "windspeed" && !hasCol t "windspeed_category" then
    (qcut (zeroAdjusted (getCol t "windspeed")) 3 ["low", "medium", "high"]).map
      (setCol (setCol t "windspeed" (zeroAdjusted (getCol t "windspeed"))) "windspeed_category")
  else .ok t

/-- feature_engineering: the guarded derivation steps in source order; fails
exactly where pd.qcut raises. -/
def feature_engineering (t : Table) : Except String Table := do
  let t1 := fe_count (fe_weather (fe_season (fe_datetime t)))
  let t2 ← fe_temp t1
  let t3 ← fe_atemp t2
  let t4 := fe_humidity t3
  fe_windspeed t4

/-- The pipeline stages after the initial load, as process() composes
them. -/
def processPipeline (t : Table) : Except String Table :=
  feature_engineering (impute_and_cast (basic_clean t))

/-! ### src/data_processing.py — load_data -/

inductive Source where
  | url (u : String)
  | file (p : String)
  | defaultFile
  | defaultUrl
deriving DecidableEq, Repr

/-- Python truthiness of an optional string argument (None and the empty
string are falsy). -/
def pyTruthy : Option String → Bool
  | none => false
  | some s => !(s == "")

/-- Source resolution of load_data: an explicit URL wins, then an explicit
path, then the default local file when it exists, else the default URL. -/
def resolveSource (path url : Option String) (defaultInputExists : Bool) : Source :=
  if pyTruthy url then .url (url.getD "")
  else if pyTruthy path then .file (path.getD "")
  else if defaultInputExists then .defaultFile
  else .defaultUrl

/-- The reachable inputs: what reading each source yields (none means the
source is unreadable or unparseable). -/
structure LoadEnv where
  urlData : String → Option Table
  fileData : String → Option Table
  defaultInputExists : Bool
  defaultFileData : Option Table
  defaultUrlData : Option Table

def readSource (env : LoadEnv) : Source → Option Table
  | .url u => env.urlData u
  | .file p => env.fileData p
  | .defaultFile => env.defaultFileData
  | .defaultUrl => env.defaultUrlData

/-- load_data: read from the resolved source; the only hard failure of the
pipeline entry (unreadable source). -/
def load_data (env : LoadEnv) (path url : Option String) : Except String Table :=
  match readSource env (resolveSource path url env.defaultInputExists) with
  | some t => .ok t
  | none => .error "read_csv failed"

/-! ### The persisted CSV artifact (df.to_csv / pd.read_csv)

The artifact is modelled as named columns of field texts; the physical
row-major layout of the file is content-equivalent.  Missing values are
written as empty fields.  Whole floats are written as z.0; a value whose
denominator does not divide a power of ten has no finite decimal text, and
the model writes it in an exact fraction encoding standing in for the float
shortest round-trip representation (binary floats always round-trip exactly
through pandas CSV text). -/

def cellChars : Cell → List Char
  | .int z => intToChars z
  | .float q =>
    if q.den = 1 then intToChars q.num ++ ['.', '0']
    else intToChars q.num ++ '/' :: natToDigits q.den
  | .str s => s.data
  | .dt d => dtChars d
  | .date y m d => dateChars y m d
  | .na => []

def cellText (c : Cell) : String := ⟨cellChars c⟩

/-- df.to_csv(index=False): header-keyed columns of field texts. -/
def writeCSV (t : Table) : List (String × List String) :=
  t.cols.map (fun p => (p.1, p.2.map cellText))

/-- Column type inference of pd.read_csv: an all-integer column reads as
integers, an all-numeric column as floats, anything else as text; empty
fields are missing in every case. -/
def inferCol (ss : List String) : List Cell :=
  if ss.all (fun s => s = "" || (charsToInt? s.data).isSome) then
    ss.map (fun s => match charsToInt? s.data with
      | some z => .int z
      | none => .na)
  else if ss.all (fun s => s = "" || (floatChars? s.data).isSome) then
    ss.map (fun s => match floatChars? s.data with
      | some q => .float q
      | none => .na)
  else ss.map (fun s => if s = "" then .na else .str s)

def parseDTText (s : String) : Cell :=
  match parseDTChars? s.data with
  | some d => .dt d
  | none => .na

def readTable (f : List (String × List String)) : Table :=
  ⟨f.map (fun p => (p.1, if p.1 == "datetime" then p.2.map parseDTText else inferCol p.2))⟩

/-- pd.read_csv(p, parse_dates=["datetime"]) as generate_all calls it: a
hard failure when the artifact has no datetime column. -/
def readCSV (f : List (String × List String)) : Except String Table :=
  if (f.map Prod.fst).contains "datetime" then .ok (readTable f)
  else .error "Missing column provided to parse_dates: datetime"

/-! ### src/plots.py — the report generator

Each renderer returns the (possibly modified) in-memory table and whether a
chart was written; figure contents are outside the model. -/

def plot_seasonal_trends (t : Table) : Table × Bool :=
  if hasCol t "season_label" then (t, true) else (t, false)

def plot_temp_vs_count (t : Table) : Table × Bool :=
  if hasCol t "temp" then (t, true) else (t, false)

/-- plot_hourly_pattern reconstructs the hour column on the input dataframe
itself when it is missing and a datetime column exists. -/
def plot_hourly_pattern (t : Table) : Table × Bool :=
  if hasCol t "hour" then (t, true)
  else if hasCol t "datetime" then
    (setCol t "hour" ((getCol t "datetime").map (fun c => dtHour (toDatetimeCell c))), true)
  else (t, false)

def plot_category_counts (t : Table) (cat : String) : Table × Bool :=
  if hasCol t cat then (t, true) else (t, false)

def plot_registered_vs_casual (t : Table) : Table × Bool :=
  if hasCol t "registered" && hasCol t "casual" then (t, true) else (t, false)

/-- A numeric dtype column (select_dtypes include="number"). -/
def isNumericCol (cs : List Cell) : Bool :=
  cs.all (fun c => match c with
    | .int _ => true
    | .float _ => true
    | .na => true
    | _ => false)

def plot_correlation_heatmap (t : Table) : Table × Bool :=
  if 2 ≤ (t.cols.filter (fun p => isNumericCol p.2)).length then (t, true) else (t, false)

/-- The date-only reconstruction in generate_all, before the renderers. -/
def ensureDate (t : Table) : Table :=
  if !hasCol t "date" && hasCol t "datetime" then
    setCol t "date" ((getCol t "datetime").map (fun c => dtDate (toDatetimeCell c)))
  else t

/-- The renderer sequence of generate_all, threading the in-memory table. -/
def runRenderers (t : Table) : Table :=
  let t1 := (plot_seasonal_trends t).1
  let t2 := (plot_temp_vs_count t1).1
  let t3 := (plot_hourly_pattern t2).1
  let t4 := (plot_category_counts t3 "temp_category").1
  let t5 := (plot_category_counts t4 "atemp_category").1
  let t6 := (plot_category_counts t5 "humidity_category").1
  let t7 := (plot_category_counts t6 "windspeed_category").1
  let t8 := (plot_registered_vs_casual t7).1
  (plot_correlation_heatmap t8).1

/-- generate_all: load the artifact (hard failure when absent or without a
datetime column), reconstruct date, run every renderer. -/
def generate_all (f : List (String × List String)) : Except String Table :=
  (readCSV f).map (fun t => runRenderers (ensureDate t))

/-! ### Basic lemmas about the table operations -/

/-! ### Concrete tables and environments used by the claim checks -/

def tConstTemp : Table := ⟨[("temp", [.str "5"])]⟩

def tC1w : Table := ⟨[("humidity", [.float 40])]⟩

def tHourOverwrite : Table :=
  ⟨[("datetime", [.dt ⟨2011, 1, 1, 5, 0, 0⟩]), ("hour", [.int 99])]⟩

def tC2w : Table :=
  ⟨[("temp", [.float 1, .float 2, .float 3, .float 4]),
    ("count", [.int 9, .int 8, .int 7, .int 6])]⟩

def tC2wOut : Table :=
  ⟨[("temp", [.float 1, .float 2, .float 3, .float 4]),
    ("count", [.int 9, .int 8, .int 7, .int 6]),
    ("temp_category", [.str "cold", .str "mild", .str "warm", .str "hot"])]⟩

def tHourMissing : Table := ⟨[("datetime", [.dt ⟨2011, 1, 1, 5, 0, 0⟩]), ("count", [.int 7])]⟩

def tWindExample : Table :=
  ⟨[("windspeed", [.float 0, .float 0, .float 10, .float 20, .float 30])]⟩

def tC7w : Table := ⟨[("registered", [.int 3, .int 4]), ("casual", [.int 1, .int 0])]⟩

def tC7wOut : Table :=
  ⟨[("registered", [.int 3, .int 4]), ("casual", [.int 1, .int 0]),
    ("count", [.int 4, .int 4])]⟩

def tC4w : Table := ⟨[("temp", [.str "5", .na, .str "7"])]⟩

def tC6w : Table := ⟨[("season", [.int 1, .int 5])]⟩

def tC6wOut : Table :=
  ⟨[("season", [.int 1, .int 5]), ("season_label", [.str "spring", .str "unknown"])]⟩

def tC10w : Table := ⟨[("windspeed", [.float 0, .float 10, .float 20, .float 30])]⟩

def tC10wOut : Table :=
  ⟨[("windspeed", [.float 15, .float 10, .float 20, .float 30]),
    ("windspeed_category", [.str "low", .str "low", .str "medium", .str "high"])]⟩

def intCellB : Cell → Bool
  | .int _ => true
  | .na => true
  | _ => false

def floatCellB : Cell → Bool
  | .float _ => true
  | .na => true
  | _ => false

/-- Text cells that read back unchanged: nonempty text that does not
itself parse as an integer or a float. -/

def safeStrCell : Cell → Bool
  | .str s => !s.data.isEmpty && ((charsToInt? s.data).isNone && (floatChars? s.data).isNone)
  | .na => true
  | _ => false

def dtCellB : Cell → Bool
  | .dt _ => true
  | .na => true
  | _ => false

def dateCellB : Cell → Bool
  | .date _ _ _ => true
  | .na => true
  | _ => false

/-- A column whose cells survive the CSV text round trip: the datetime
column holds timestamps, the date column date values, and any other column
is uniformly integer, float, or safe text. -/

def goodCol (name : String) (cs : List Cell) : Bool :=
  if name = "datetime" then cs.all dtCellB
  else if name = "date" then cs.all dateCellB
  else cs.all intCellB || (cs.all floatCellB || cs.all safeStrCell)

def csvReadSafe (t : Table) : Bool := t.cols.all (fun p => goodCol p.1 p.2)

/-- The date-only column reads back from the artifact as date text. -/

def dateTextCell : Cell → Cell
  | .date y m d => .str ⟨dateChars y m d⟩
  | c => c

def tNoDatetime : Table := ⟨[("season", [.int 1])]⟩

def tNoDatetimeOut : Table := ⟨[("season", [.int 1]), ("season_label", [.str "spring"])]⟩

def tRoundTrip : Table :=
  ⟨[("datetime", [.dt ⟨2011, 1, 1, 5, 0, 0⟩, .na]),
    ("season", [.int 1, .int 2]),
    ("temp", [.float (7 / 2), .na]),
    ("season_label", [.str "spring", .str "summer"]),
    ("date", [.date 2011 1 1, .na])]⟩

def envW : LoadEnv := ⟨fun _ => some ⟨[]⟩, fun _ => none, true, none, none⟩

theorem getCol_setCol_self (t : Table) (c : String) (v : List Cell) :
    getCol (setCol t c v) c = v := by
  obtain ⟨l⟩ := t
  show getColAux c (setColAux c v l) = v
  induction l with
  | nil => simp [setColAux, getColAux]
  | cons p l ih =>
    by_cases h : p.1 = c
    · simp [setColAux, getColAux, beq_iff_eq, h]
    · simp [setColAux, getColAux, beq_iff_eq, h, ih]

theorem getCol_setCol_ne (t : Table) (c c' : String) (v : List Cell) (h : c' ≠ c) :
    getCol (setCol t c v) c' = getCol t c' := by
  obtain ⟨l⟩ := t
  show getColAux c' (setColAux c v l) = getColAux c' l
  induction l with
  | nil => simp [setColAux, getColAux, beq_iff_eq, Ne.symm h]
  | cons p l ih =>
    by_cases hp : p.1 = c
    · simp [setColAux, getColAux, beq_iff_eq, hp, Ne.symm h]
    · simp [setColAux, getColAux, beq_iff_eq, hp, ih]

theorem hasCol_setCol_self (t : Table) (c : String) (v : List Cell) :
    hasCol (setCol t c v) c = true := by
  obtain ⟨l⟩ := t
  show hasColAux c (setColAux c v l) = true
  induction l with
  | nil => simp [setColAux, hasColAux]
  | cons p l ih =>
    by_cases h : p.1 = c
    · simp [setColAux, hasColAux, beq_iff_eq, h]
    · simp [setColAux, hasColAux, beq_iff_eq, h, ih]

theorem hasCol_setCol_ne (t : Table) (c c' : String) (v : List Cell) (h : c' ≠ c) :
    hasCol (setCol t c v) c' = hasCol t c' := by
  obtain ⟨l⟩ := t
  show hasColAux c' (setColAux c v l) = hasColAux c' l
  induction l with
  | nil => simp [setColAux, hasColAux, beq_iff_eq, Ne.symm h]
  | cons p l ih =>
    by_cases hp : p.1 = c
    · simp [setColAux, hasColAux, beq_iff_eq, hp, Ne.symm h]
    · simp [setColAux, hasColAux, beq_iff_eq, hp, ih]

theorem getCol_updCol_self (t : Table) (c : String) (f : List Cell → List Cell)
    (h : hasCol t c = true) : getCol (updCol t c f) c = f (getCol t c) := by
  simp [updCol, h, getCol_setCol_self]

theorem getCol_updCol_ne (t : Table) (c c' : String) (f : List Cell → List Cell)
    (h : c ≠ c') : getCol (updCol t c' f) c = getCol t c := by
  unfold updCol
  split
  · exact getCol_setCol_ne _ _ _ _ h
  · rfl

theorem hasCol_updCol (t : Table) (c c' : String) (f : List Cell → List Cell) :
    hasCol (updCol t c' f) c = hasCol t c := by
  unfold updCol
  split
  · rename_i hc'
    by_cases h : c = c'
    · subst h; rw [hasCol_setCol_self, hc']
    · exact hasCol_setCol_ne _ _ _ _ h
  · rfl

theorem getCol_mapColInto_self (t : Table) (src dst : String) (f : Cell → Cell) :
    getCol (mapColInto t src dst f) dst = (getCol t src).map f :=
  getCol_setCol_self _ _ _

theorem getCol_mapColInto_ne (t : Table) (src dst c : String) (f : Cell → Cell)
    (h : c ≠ dst) : getCol (mapColInto t src dst f) c = getCol t c :=
  getCol_setCol_ne _ _ _ _ h

theorem hasCol_mapColInto_ne (t : Table) (src dst c : String) (f : Cell → Cell)
    (h : c ≠ dst) : hasCol (mapColInto t src dst f) c = hasCol t c :=
  hasCol_setCol_ne _ _ _ _ h

/-! ### Preservation lemmas for the feature_engineering steps -/

theorem fe_datetime_preserves (t : Table) (c : String)
    (h1 : c ≠ "hour") (h2 : c ≠ "day_of_week") (h3 : c ≠ "weekday")
    (h4 : c ≠ "month") (h5 : c ≠ "year") (h6 : c ≠ "date") :
    getCol (fe_datetime t) c = getCol t c ∧ hasCol (fe_datetime t) c = hasCol t c := by
  unfold fe_datetime
  split
  · constructor
    · rw [getCol_mapColInto_ne _ _ _ _ _ h6, getCol_mapColInto_ne _ _ _ _ _ h5,
        getCol_mapColInto_ne _ _ _ _ _ h4, getCol_mapColInto_ne _ _ _ _ _ h3,
        getCol_mapColInto_ne _ _ _ _ _ h2, getCol_mapColInto_ne _ _ _ _ _ h1]
    · rw [hasCol_mapColInto_ne _ _ _ _ _ h6, hasCol_mapColInto_ne _ _ _ _ _ h5,
        hasCol_mapColInto_ne _ _ _ _ _ h4, hasCol_mapColInto_ne _ _ _ _ _ h3,
        hasCol_mapColInto_ne _ _ _ _ _ h2, hasCol_mapColInto_ne _ _ _ _ _ h1]
  · exact ⟨rfl, rfl⟩

theorem fe_season_preserves (t : Table) (c : String) (h : c ≠ "season_label") :
    getCol (fe_season t) c = getCol t c ∧ hasCol (fe_season t) c = hasCol t c := by
  unfold fe_season
  split
  · exact ⟨getCol_mapColInto_ne _ _ _ _ _ h, hasCol_mapColInto_ne _ _ _ _ _ h⟩
  · exact ⟨rfl, rfl⟩

theorem fe_weather_preserves (t : Table) (c : String) (h : c ≠ "weather_label") :
    getCol (fe_weather t) c = getCol t c ∧ hasCol (fe_weather t) c = hasCol t c := by
  unfold fe_weather
  split
  · exact ⟨getCol_mapColInto_ne _ _ _ _ _ h, hasCol_mapColInto_ne _ _ _ _ _ h⟩
  · exact ⟨rfl, rfl⟩

theorem fe_count_preserves (t : Table) (c : String) (h : c ≠ "count") :
    getCol (fe_count t) c = getCol t c ∧ hasCol (fe_count t) c = hasCol t c := by
  unfold fe_count
  split
  · exact ⟨getCol_setCol_ne _ _ _ _ h, hasCol_setCol_ne _ _ _ _ h⟩
  · exact ⟨rfl, rfl⟩

theorem fe_humidity_preserves (t : Table) (c : String) (h : c ≠ "humidity_category") :
    getCol (fe_humidity t) c = getCol t c ∧ hasCol (fe_humidity t) c = hasCol t c := by
  unfold fe_humidity
  split
  · exact ⟨getCol_setCol_ne _ _ _ _ h, hasCol_setCol_ne _ _ _ _ h⟩
  · exact ⟨rfl, rfl⟩

theorem fe_temp_preserves (t u : Table) (c : String) (h : fe_temp t = .ok u)
    (hc : c ≠ "temp_category") :
    getCol u c = getCol t c ∧ hasCol u c = hasCol t c := by
  unfold fe_temp at h
  split at h
  · cases hq : qcut (getCol t "temp") 4 ["cold", "mild", "warm", "hot"] with
    | error e => rw [hq] at h; simp [Except.map] at h
    | ok v =>
      rw [hq] at h
      simp only [Except.map, Except.ok.injEq] at h
      subst h
      exact ⟨getCol_setCol_ne _ _ _ _ hc, hasCol_setCol_ne _ _ _ _ hc⟩
  · simp only [Except.ok.injEq] at h
    subst h
    exact ⟨rfl, rfl⟩

theorem fe_atemp_preserves (t u : Table) (c : String) (h : fe_atemp t = .ok u)
    (hc : c ≠ "atemp_category") :
    getCol u c = getCol t c ∧ hasCol u c = hasCol t c := by
  unfold fe_atemp at h
  split at h
  · cases hq : qcut (getCol t "atemp") 4 ["cold", "mild", "warm", "hot"] with
    | error e => rw [hq] at h; simp [Except.map] at h
    | ok v =>
      rw [hq] at h
      simp only [Except.map, Except.ok.injEq] at h
      subst h
      exact ⟨getCol_setCol_ne _ _ _ _ hc, hasCol_setCol_ne _ _ _ _ hc⟩
  · simp only [Except.ok.injEq] at h
    subst h
    exact ⟨rfl, rfl⟩

theorem fe_windspeed_preserves (t u : Table) (c : String) (h : fe_windspeed t = .ok u)
    (hc : c ≠ "windspeed_category") (hw : c ≠ "windspeed") :
    getCol u c = getCol t c ∧ hasCol u c = hasCol t c := by
  unfold fe_windspeed at h
  split at h
  · cases hq : qcut (zeroAdjusted (getCol t "windspeed")) 3 ["low", "medium", "high"] with
    | error e => rw [hq] at h; simp [Except.map] at h
    | ok v =>
      rw [hq] at h
      simp only [Except.map, Except.ok.injEq] at h
      subst h
      refine ⟨?_, ?_⟩
      · rw [getCol_setCol_ne _ _ _ _ hc, getCol_setCol_ne _ _ _ _ hw]
      · rw [hasCol_setCol_ne _ _ _ _ hc, hasCol_setCol_ne _ _ _ _ hw]
  · simp only [Except.ok.injEq] at h
    subst h
    exact ⟨rfl, rfl⟩

/-- The do-chain of feature_engineering written with explicit binds. -/
theorem feature_engineering_eq (t : Table) :
    feature_engineering t =
      (fe_temp (fe_count (fe_weather (fe_season (fe_datetime t))))).bind
        (fun t2 => (fe_atemp t2).bind (fun t3 => fe_windspeed (fe_humidity t3))) := rfl

theorem fe_count_skip (t : Table) (h : hasCol t "count" = true) : fe_count t = t := by
  simp [fe_count, h]

theorem fe_temp_skip (t : Table) (h : hasCol t "temp_category" = true) : fe_temp t = .ok t := by
  simp [fe_temp, h]

theorem fe_atemp_skip (t : Table) (h : hasCol t "atemp_category" = true) :
    fe_atemp t = .ok t := by
  simp [fe_atemp, h]

theorem fe_humidity_skip (t : Table) (h : hasCol t "humidity_category" = true) :
    fe_humidity t = t := by
  simp [fe_humidity, h]

theorem fe_windspeed_skip (t : Table) (h : hasCol t "windspeed_category" = true) :
    fe_windspeed t = .ok t := by
  simp [fe_windspeed, h]

theorem fe_temp_total (t : Table)
    (h : hasCol t "temp" = true → hasCol t "temp_category" = false →
      qcutOK (getCol t "temp") 4 = true) :
    ∃ u, fe_temp t = .ok u := by
  unfold fe_temp
  split
  · rename_i hg
    rw [Bool.and_eq_true, Bool.not_eq_true'] at hg
    have hok := h hg.1 hg.2
    unfold qcut
    rw [if_pos hok]
    exact ⟨_, rfl⟩
  · exact ⟨t, rfl⟩

theorem fe_atemp_total (t : Table)
    (h : hasCol t "atemp" = true → hasCol t "atemp_category" = false →
      qcutOK (getCol t "atemp") 4 = true) :
    ∃ u, fe_atemp t = .ok u := by
  unfold fe_atemp
  split
  · rename_i hg
    rw [Bool.and_eq_true, Bool.not_eq_true'] at hg
    have hok := h hg.1 hg.2
    unfold qcut
    rw [if_pos hok]
    exact ⟨_, rfl⟩
  · exact ⟨t, rfl⟩

theorem fe_windspeed_total (t : Table)
    (h : hasCol t "windspeed" = true → hasCol t "windspeed_category" = false →
      qcutOK (zeroAdjusted (getCol t "windspeed")) 3 = true) :
    ∃ u, fe_windspeed t = .ok u := by
  unfold fe_windspeed
  split
  · rename_i hg
    rw [Bool.and_eq_true, Bool.not_eq_true'] at hg
    have hok := h hg.1 hg.2
    unfold qcut
    rw [if_pos hok]
    exact ⟨_, rfl⟩
  · exact ⟨t, rfl⟩

/-- A successful run of feature_engineering decomposes into successful
runs of the three fallible steps. -/
theorem fe_ok_cases (t t' : Table) (h : feature_engineering t = .ok t') :
    ∃ t2 t3, fe_temp (fe_count (fe_weather (fe_season (fe_datetime t)))) = .ok t2 ∧
      fe_atemp t2 = .ok t3 ∧ fe_windspeed (fe_humidity t3) = .ok t' := by
  rw [feature_engineering_eq] at h
  cases h1 : fe_temp (fe_count (fe_weather (fe_season (fe_datetime t)))) with
  | error e => rw [h1] at h; simp [Except.bind] at h
  | ok t2 =>
    rw [h1] at h
    simp only [Except.bind] at h
    cases h2 : fe_atemp t2 with
    | error e => rw [h2] at h; simp [Except.bind] at h
    | ok t3 =>
      rw [h2] at h
      simp only [Except.bind] at h
      exact ⟨t2, t3, rfl, h2, h⟩

/-- Preservation through the pure prefix of feature_engineering. -/
theorem prefix_preserves (t : Table) (c : String)
    (h1 : c ≠ "hour") (h2 : c ≠ "day_of_week") (h3 : c ≠ "weekday") (h4 : c ≠ "month")
    (h5 : c ≠ "year") (h6 : c ≠ "date") (h7 : c ≠ "season_label") (h8 : c ≠ "weather_label")
    (h9 : c ≠ "count") :
    getCol (fe_count (fe_weather (fe_season (fe_datetime t)))) c = getCol t c ∧
    hasCol (fe_count (fe_weather (fe_season (fe_datetime t)))) c = hasCol t c := by
  have d := fe_datetime_preserves t c h1 h2 h3 h4 h5 h6
  have s := fe_season_preserves (fe_datetime t) c h7
  have w := fe_weather_preserves (fe_season (fe_datetime t)) c h8
  have cc := fe_count_preserves (fe_weather (fe_season (fe_datetime t))) c h9
  exact ⟨by rw [cc.1, w.1, s.1, d.1], by rw [cc.2, w.2, s.2, d.2]⟩

/-- feature_engineering succeeds whenever the three quantile binnings are
skipped or well conditioned. -/
theorem fe_total_unless_qcut (t : Table)
    (h1 : hasCol t "temp" = true → hasCol t "temp_category" = false →
      qcutOK (getCol t "temp") 4 = true)
    (h2 : hasCol t "atemp" = true → hasCol t "atemp_category" = false →
      qcutOK (getCol t "atemp") 4 = true)
    (h3 : hasCol t "windspeed" = true → hasCol t "windspeed_category" = false →
      qcutOK (zeroAdjusted (getCol t "windspeed")) 3 = true) :
    ∃ u, feature_engineering t = .ok u := by
  have ptemp := prefix_preserves t "temp" (by decide) (by decide) (by decide) (by decide)
    (by decide) (by decide) (by decide) (by decide) (by decide)
  have ptempc := prefix_preserves t "temp_category" (by decide) (by decide) (by decide)
    (by decide) (by decide) (by decide) (by decide) (by decide) (by decide)
  obtain ⟨t2, e1⟩ := fe_temp_total (fe_count (fe_weather (fe_season (fe_datetime t)))) (by
    intro ha hb
    rw [ptemp.2] at ha
    rw [ptempc.2] at hb
    rw [ptemp.1]
    exact h1 ha hb)
  have patemp : getCol t2 "atemp" = getCol t "atemp" ∧
      hasCol t2 "atemp" = hasCol t "atemp" := by
    have pp := prefix_preserves t "atemp" (by decide) (by decide) (by decide) (by decide)
      (by decide) (by decide) (by decide) (by decide) (by decide)
    have pt := fe_temp_preserves _ _ "atemp" e1 (by decide)
    exact ⟨pt.1.trans pp.1, pt.2.trans pp.2⟩
  have patempc : hasCol t2 "atemp_category" = hasCol t "atemp_category" := by
    have pp := prefix_preserves t "atemp_category" (by decide) (by decide) (by decide)
      (by decide) (by decide) (by decide) (by decide) (by decide) (by decide)
    have pt := fe_temp_preserves _ _ "atemp_category" e1 (by decide)
    exact pt.2.trans pp.2
  obtain ⟨t3, e2⟩ := fe_atemp_total t2 (by
    intro ha hb
    rw [patemp.2] at ha
    rw [patempc] at hb
    rw [patemp.1]
    exact h2 ha hb)
  have pws : getCol (fe_humidity t3) "windspeed" = getCol t "windspeed" ∧
      hasCol (fe_humidity t3) "windspeed" = hasCol t "windspeed" := by
    have pp := prefix_preserves t "windspeed" (by decide) (by decide) (by decide) (by decide)
      (by decide) (by decide) (by decide) (by decide) (by decide)
    have pt := fe_temp_preserves _ _ "windspeed" e1 (by decide)
    have pa := fe_atemp_preserves _ _ "windspeed" e2 (by decide)
    have ph := fe_humidity_preserves t3 "windspeed" (by decide)
    exact ⟨((ph.1.trans pa.1).trans pt.1).trans pp.1,
      ((ph.2.trans pa.2).trans pt.2).trans pp.2⟩
  have pwsc : hasCol (fe_humidity t3) "windspeed_category" = hasCol t "windspeed_category" := by
    have pp := prefix_preserves t "windspeed_category" (by decide) (by decide) (by decide)
      (by decide) (by decide) (by decide) (by decide) (by decide) (by decide)
    have pt := fe_temp_preserves _ _ "windspeed_category" e1 (by decide)
    have pa := fe_atemp_preserves _ _ "windspeed_category" e2 (by decide)
    have ph := fe_humidity_preserves t3 "windspeed_category" (by decide)
    exact ((ph.2.trans pa.2).trans pt.2).trans pp.2
  obtain ⟨t4, e3⟩ := fe_windspeed_total (fe_humidity t3) (by
    intro ha hb
    rw [pws.2] at ha
    rw [pwsc] at hb
    rw [pws.1]
    exact h3 ha hb)
  refine ⟨t4, ?_⟩
  rw [feature_engineering_eq, e1]
  simp only [Except.bind]
  rw [e2]
  simp only [Except.bind]
  exact e3

/-! ### Claim C1 -/

/-- C1 counterexample: the pipeline after a successful load is not
error-free — on a table whose temp column has a single (hence constant)
value, the four-way quantile binning in feature_engineering fails with the
non-unique bin edges error, so the pipeline raises past the load. -/
theorem pipeline_raises_on_constant_temp :
    processPipeline tConstTemp = .error "Bin edges must be unique" := by
  with_unfolding_all rfl

/-- C1 (amended): basic_clean and impute_and_cast are total and every
per-column derivation step is skipped when its prerequisite column is
missing, but the quantile binnings of temp, atemp and the zero-adjusted
windspeed can fail on columns with few distinct values; whenever each of
the three binnings is skipped or has distinct bin edges, the whole pipeline
after the load succeeds. -/
theorem pipeline_ok_unless_qcut (t : Table)
    (h1 : hasCol (impute_and_cast (basic_clean t)) "temp" = true →
      hasCol (impute_and_cast (basic_clean t)) "temp_category" = false →
      qcutOK (getCol (impute_and_cast (basic_clean t)) "temp") 4 = true)
    (h2 : hasCol (impute_and_cast (basic_clean t)) "atemp" = true →
      hasCol (impute_and_cast (basic_clean t)) "atemp_category" = false →
      qcutOK (getCol (impute_and_cast (basic_clean t)) "atemp") 4 = true)
    (h3 : hasCol (impute_and_cast (basic_clean t)) "windspeed" = true →
      hasCol (impute_and_cast (basic_clean t)) "windspeed_category" = false →
      qcutOK (zeroAdjusted (getCol (impute_and_cast (basic_clean t)) "windspeed")) 3 = true) :
    ∃ u, processPipeline t = .ok u :=
  fe_total_unless_qcut (impute_and_cast (basic_clean t)) h1 h2 h3

theorem pipeline_ok_unless_qcut_witness : ∃ u, processPipeline tC1w = .ok u :=
  pipeline_ok_unless_qcut tC1w (by with_unfolding_all decide)
    (by with_unfolding_all decide) (by with_unfolding_all decide)

/-! ### Claim C2 -/

/-- C2 counterexample: an existing hour column is not left unchanged —
feature_engineering overwrites it from the datetime column (99 becomes 5),
so the datetime-derived columns carry no target-absence guard. -/
theorem hour_column_overwritten :
    getCol tHourOverwrite "hour" = [Cell.int 99] ∧
    Except.map (fun u => getCol u "hour") (feature_engineering tHourOverwrite)
      = .ok [Cell.int 5] := by
  exact ⟨rfl, rfl⟩

/-- C2 (amended): only count, temp_category, atemp_category,
humidity_category and windspeed_category are guarded by target absence;
when one of those five is already present, feature_engineering leaves its
values unchanged (the datetime-derived and label columns are instead
recomputed whenever their source column exists). -/
theorem guarded_targets_unchanged (t t' : Table) (h : feature_engineering t = .ok t') :
    (hasCol t "count" = true → getCol t' "count" = getCol t "count") ∧
    (hasCol t "temp_category" = true →
      getCol t' "temp_category" = getCol t "temp_category") ∧
    (hasCol t "atemp_category" = true →
      getCol t' "atemp_category" = getCol t "atemp_category") ∧
    (hasCol t "humidity_category" = true →
      getCol t' "humidity_category" = getCol t "humidity_category") ∧
    (hasCol t "windspeed_category" = true →
      getCol t' "windspeed_category" = getCol t "windspeed_category") := by
  obtain ⟨t2, t3, e1, e2, e3⟩ := fe_ok_cases t t' h
  refine ⟨?_, ?_, ?_, ?_, ?_⟩
  · intro hc
    have d := fe_datetime_preserves t "count" (by decide) (by decide) (by decide) (by decide)
      (by decide) (by decide)
    have s := fe_season_preserves (fe_datetime t) "count" (by decide)
    have w := fe_weather_preserves (fe_season (fe_datetime t)) "count" (by decide)
    have hcc : hasCol (fe_weather (fe_season (fe_datetime t))) "count" = true := by
      rw [w.2, s.2, d.2]; exact hc
    rw [fe_count_skip _ hcc] at e1
    have p1 := fe_temp_preserves _ _ "count" e1 (by decide)
    have p2 := fe_atemp_preserves _ _ "count" e2 (by decide)
    have hm := fe_humidity_preserves t3 "count" (by decide)
    have p3 := fe_windspeed_preserves _ _ "count" e3 (by decide) (by decide)
    rw [p3.1, hm.1, p2.1, p1.1, w.1, s.1, d.1]
  · intro hc
    have pp := prefix_preserves t "temp_category" (by decide) (by decide) (by decide)
      (by decide) (by decide) (by decide) (by decide) (by decide) (by decide)
    have hcc : hasCol (fe_count (fe_weather (fe_season (fe_datetime t)))) "temp_category"
        = true := by rw [pp.2]; exact hc
    rw [fe_temp_skip _ hcc] at e1
    simp only [Except.ok.injEq] at e1
    subst e1
    have p2 := fe_atemp_preserves _ _ "temp_category" e2 (by decide)
    have hm := fe_humidity_preserves t3 "temp_category" (by decide)
    have p3 := fe_windspeed_preserves _ _ "temp_category" e3 (by decide) (by decide)
    rw [p3.1, hm.1, p2.1, pp.1]
  · intro hc
    have pp := prefix_preserves t "atemp_category" (by decide) (by decide) (by decide)
      (by decide) (by decide) (by decide) (by decide) (by decide) (by decide)
    have p1 := fe_temp_preserves _ _ "atemp_category" e1 (by decide)
    have hcc : hasCol t2 "atemp_category" = true := by rw [p1.2, pp.2]; exact hc
    rw [fe_atemp_skip _ hcc] at e2
    simp only [Except.ok.injEq] at e2
    rw [← e2] at e3
    have hm := fe_humidity_preserves t2 "atemp_category" (by decide)
    have p3 := fe_windspeed_preserves _ _ "atemp_category" e3 (by decide) (by decide)
    rw [p3.1, hm.1, p1.1, pp.1]
  · intro hc
    have pp := prefix_preserves t "humidity_category" (by decide) (by decide) (by decide)
      (by decide) (by decide) (by decide) (by decide) (by decide) (by decide)
    have p1 := fe_temp_preserves _ _ "humidity_category" e1 (by decide)
    have p2 := fe_atemp_preserves _ _ "humidity_category" e2 (by decide)
    have hcc : hasCol t3 "humidity_category" = true := by rw [p2.2, p1.2, pp.2]; exact hc
    rw [fe_humidity_skip _ hcc] at e3
    have p3 := fe_windspeed_preserves _ _ "humidity_category" e3 (by decide) (by decide)
    rw [p3.1, p2.1, p1.1, pp.1]
  · intro hc
    have pp := prefix_preserves t "windspeed_category" (by decide) (by decide) (by decide)
      (by decide) (by decide) (by decide) (by decide) (by decide) (by decide)
    have p1 := fe_temp_preserves _ _ "windspeed_category" e1 (by decide)
    have p2 := fe_atemp_preserves _ _ "windspeed_category" e2 (by decide)
    have hm := fe_humidity_preserves t3 "windspeed_category" (by decide)
    have hcc : hasCol (fe_humidity t3) "windspeed_category" = true := by
      rw [hm.2, p2.2, p1.2, pp.2]; exact hc
    rw [fe_windspeed_skip _ hcc] at e3
    simp only [Except.ok.injEq] at e3
    subst e3
    rw [hm.1, p2.1, p1.1, pp.1]

theorem guarded_targets_unchanged_witness :
    getCol tC2wOut "count" = getCol tC2w "count" :=
  (guarded_targets_unchanged tC2w tC2wOut (by with_unfolding_all rfl)).1 (by rfl)

/-! ### Claim C3 -/

theorem plot_seasonal_trends_fst (t : Table) : (plot_seasonal_trends t).1 = t := by
  unfold plot_seasonal_trends; split <;> rfl

theorem plot_temp_vs_count_fst (t : Table) : (plot_temp_vs_count t).1 = t := by
  unfold plot_temp_vs_count; split <;> rfl

theorem plot_category_counts_fst (t : Table) (c : String) :
    (plot_category_counts t c).1 = t := by
  unfold plot_category_counts; split <;> rfl

theorem plot_registered_vs_casual_fst (t : Table) : (plot_registered_vs_casual t).1 = t := by
  unfold plot_registered_vs_casual; split <;> rfl

theorem plot_correlation_heatmap_fst (t : Table) : (plot_correlation_heatmap t).1 = t := by
  unfold plot_correlation_heatmap; split <;> rfl

theorem runRenderers_eq (t : Table) : runRenderers t = (plot_hourly_pattern t).1 := by
  simp [runRenderers, plot_seasonal_trends_fst, plot_temp_vs_count_fst,
    plot_category_counts_fst, plot_registered_vs_casual_fst, plot_correlation_heatmap_fst]

/-- C3 counterexample: a renderer does modify the in-memory table after
loading — plot_hourly_pattern adds an hour column (derived from datetime)
to a table that lacks one. -/
theorem renderer_adds_hour_column :
    hasCol tHourMissing "hour" = false ∧
    (plot_hourly_pattern tHourMissing).1
      = ⟨[("datetime", [.dt ⟨2011, 1, 1, 5, 0, 0⟩]), ("count", [.int 7]),
          ("hour", [.int 5])]⟩ := by
  exact ⟨rfl, rfl⟩

/-- C3 (amended): every renderer except plot_hourly_pattern leaves the
in-memory table unchanged; plot_hourly_pattern leaves it unchanged when an
hour column is present or no datetime column exists, and otherwise adds
exactly the hour column derived from datetime, so the renderer sequence
changes the table in no other way. -/
theorem renderers_modify_only_hour (t : Table) :
    (plot_seasonal_trends t).1 = t ∧
    (plot_temp_vs_count t).1 = t ∧
    (∀ c, (plot_category_counts t c).1 = t) ∧
    (plot_registered_vs_casual t).1 = t ∧
    (plot_correlation_heatmap t).1 = t ∧
    (hasCol t "hour" = true → runRenderers t = t) ∧
    (hasCol t "hour" = false → hasCol t "datetime" = true →
      runRenderers t
        = setCol t "hour" ((getCol t "datetime").map (fun c => dtHour (toDatetimeCell c)))) ∧
    (hasCol t "hour" = false → hasCol t "datetime" = false → runRenderers t = t) := by
  refine ⟨plot_seasonal_trends_fst t, plot_temp_vs_count_fst t,
    fun c => plot_category_counts_fst t c, plot_registered_vs_casual_fst t,
    plot_correlation_heatmap_fst t, ?_, ?_, ?_⟩
  · intro hh
    rw [runRenderers_eq]
    simp [plot_hourly_pattern, hh]
  · intro hh hd
    rw [runRenderers_eq]
    simp [plot_hourly_pattern, hh, hd]
  · intro hh hd
    rw [runRenderers_eq]
    simp [plot_hourly_pattern, hh, hd]

theorem renderers_modify_only_hour_witness :
    runRenderers tHourMissing
      = setCol tHourMissing "hour"
          ((getCol tHourMissing "datetime").map (fun c => dtHour (toDatetimeCell c))) :=
  (renderers_modify_only_hour tHourMissing).2.2.2.2.2.2.1 (by rfl) (by rfl)

/-! ### Claim C5 -/

/-- C5: on the documented example column [0, 0, 10, 20, 30] the zero
entries are indeed replaced by the median 10 of the original column, but
the subsequent three-way quantile binning then fails with the non-unique
bin edges error (the 0- and 1/3-quantile edges of [10, 10, 10, 20, 30]
coincide at 10), so no binned column results — the documented mitigation
does not prevent the degenerate case here. -/
theorem windspeed_example_raises :
    zeroAdjusted (getCol tWindExample "windspeed")
      = [.float 10, .float 10, .float 10, .float 20, .float 30] ∧
    qcutEdges (cellNums (zeroAdjusted (getCol tWindExample "windspeed"))) 3
      = [10, 10, 50 / 3, 30] ∧
    feature_engineering tWindExample = .error "Bin edges must be unique" := by
  refine ⟨by with_unfolding_all rfl, by with_unfolding_all rfl, by with_unfolding_all rfl⟩

/-! ### Claim C7 -/

/-- C7: feature_engineering adds a count column equal row by row to
registered + casual exactly when count is absent and both addends are
present; an existing count column is kept, and no count column appears
when an addend is missing. -/
theorem count_reconstruction (t t' : Table) (h : feature_engineering t = .ok t') :
    (hasCol t "count" = false → hasCol t "registered" = true → hasCol t "casual" = true →
      getCol t' "count" = List.zipWith addCell (getCol t "registered") (getCol t "casual")) ∧
    (hasCol t "count" = true → getCol t' "count" = getCol t "count") ∧
    (hasCol t "count" = false →
      (hasCol t "registered" = false ∨ hasCol t "casual" = false) →
      hasCol t' "count" = false) ∧
    (∀ a b : Int, addCell (.int a) (.int b) = .int (a + b)) := by
  obtain ⟨t2, t3, e1, e2, e3⟩ := fe_ok_cases t t' h
  have d := fun c h1 h2 h3 h4 h5 h6 => fe_datetime_preserves t c h1 h2 h3 h4 h5 h6
  have dcnt := d "count" (by decide) (by decide) (by decide) (by decide) (by decide) (by decide)
  have dreg := d "registered" (by decide) (by decide) (by decide) (by decide) (by decide)
    (by decide)
  have dcas := d "casual" (by decide) (by decide) (by decide) (by decide) (by decide) (by decide)
  have scnt := fe_season_preserves (fe_datetime t) "count" (by decide)
  have sreg := fe_season_preserves (fe_datetime t) "registered" (by decide)
  have scas := fe_season_preserves (fe_datetime t) "casual" (by decide)
  have wcnt := fe_weather_preserves (fe_season (fe_datetime t)) "count" (by decide)
  have wreg := fe_weather_preserves (fe_season (fe_datetime t)) "registered" (by decide)
  have wcas := fe_weather_preserves (fe_season (fe_datetime t)) "casual" (by decide)
  refine ⟨?_, ?_, ?_, fun a b => rfl⟩
  · intro hc hr hcas
    have hguard : (!hasCol (fe_weather (fe_season (fe_datetime t))) "count"
        && (hasCol (fe_weather (fe_season (fe_datetime t))) "registered"
          && hasCol (fe_weather (fe_season (fe_datetime t))) "casual")) = true := by
      rw [wcnt.2, scnt.2, dcnt.2, wreg.2, sreg.2, dreg.2, wcas.2, scas.2, dcas.2,
        hc, hr, hcas]
      rfl
    have hstep : fe_count (fe_weather (fe_season (fe_datetime t)))
        = setCol (fe_weather (fe_season (fe_datetime t))) "count"
            (List.zipWith addCell
              (getCol (fe_weather (fe_season (fe_datetime t))) "registered")
              (getCol (fe_weather (fe_season (fe_datetime t))) "casual")) := by
      unfold fe_count
      rw [if_pos hguard]
    rw [hstep] at e1
    have p1 := fe_temp_preserves _ _ "count" e1 (by decide)
    have p2 := fe_atemp_preserves _ _ "count" e2 (by decide)
    have hm := fe_humidity_preserves t3 "count" (by decide)
    have p3 := fe_windspeed_preserves _ _ "count" e3 (by decide) (by decide)
    rw [p3.1, hm.1, p2.1, p1.1, getCol_setCol_self, wreg.1, sreg.1, dreg.1,
      wcas.1, scas.1, dcas.1]
  · intro hc
    have hcc : hasCol (fe_weather (fe_season (fe_datetime t))) "count" = true := by
      rw [wcnt.2, scnt.2, dcnt.2]; exact hc
    rw [fe_count_skip _ hcc] at e1
    have p1 := fe_temp_preserves _ _ "count" e1 (by decide)
    have p2 := fe_atemp_preserves _ _ "count" e2 (by decide)
    have hm := fe_humidity_preserves t3 "count" (by decide)
    have p3 := fe_windspeed_preserves _ _ "count" e3 (by decide) (by decide)
    rw [p3.1, hm.1, p2.1, p1.1, wcnt.1, scnt.1, dcnt.1]
  · intro hc hor
    have hguard : (!hasCol (fe_weather (fe_season (fe_datetime t))) "count"
        && (hasCol (fe_weather (fe_season (fe_datetime t))) "registered"
          && hasCol (fe_weather (fe_season (fe_datetime t))) "casual")) = false := by
      rw [wcnt.2, scnt.2, dcnt.2, wreg.2, sreg.2, dreg.2, wcas.2, scas.2, dcas.2, hc]
      rcases hor with hx | hx <;> rw [hx] <;> simp
    have hstep : fe_count (fe_weather (fe_season (fe_datetime t)))
        = fe_weather (fe_season (fe_datetime t)) := by
      unfold fe_count
      rw [if_neg (by rw [hguard]; exact Bool.false_ne_true)]
    rw [hstep] at e1
    have p1 := fe_temp_preserves _ _ "count" e1 (by decide)
    have p2 := fe_atemp_preserves _ _ "count" e2 (by decide)
    have hm := fe_humidity_preserves t3 "count" (by decide)
    have p3 := fe_windspeed_preserves _ _ "count" e3 (by decide) (by decide)
    rw [p3.2, hm.2, p2.2, p1.2, wcnt.2, scnt.2, dcnt.2]
    exact hc

theorem count_reconstruction_witness :
    getCol tC7wOut "count"
      = List.zipWith addCell (getCol tC7w "registered") (getCol tC7w "casual") :=
  (count_reconstruction tC7w tC7wOut (by rfl)).1 (by rfl) (by rfl) (by rfl)

/-! ### Claim C4 -/

theorem foldl_updCol_notmem (f : List Cell → List Cell) (cols : List String) (t : Table)
    (c : String) (h : c ∉ cols) :
    getCol (cols.foldl (fun u x => updCol u x f) t) c = getCol t c ∧
    hasCol (cols.foldl (fun u x => updCol u x f) t) c = hasCol t c := by
  induction cols generalizing t with
  | nil => exact ⟨rfl, rfl⟩
  | cons x cols ih =>
    have hx : c ≠ x := fun hh => h (hh ▸ List.mem_cons_self x cols)
    have htl : c ∉ cols := fun hh => h (List.mem_cons_of_mem x hh)
    simp only [List.foldl_cons]
    refine ⟨?_, ?_⟩
    · rw [(ih (updCol t x f) htl).1, getCol_updCol_ne _ _ _ _ hx]
    · rw [(ih (updCol t x f) htl).2, hasCol_updCol]

theorem foldl_updCol_mem (f : List Cell → List Cell) (cols : List String) (t : Table)
    (c : String) (h : hasCol t c = true) (hmem : c ∈ cols) (hnd : cols.Nodup) :
    getCol (cols.foldl (fun u x => updCol u x f) t) c = f (getCol t c) := by
  induction cols generalizing t with
  | nil => cases hmem
  | cons x cols ih =>
    simp only [List.foldl_cons]
    by_cases hx : c = x
    · subst hx
      have hnotin : c ∉ cols := (List.nodup_cons.mp hnd).1
      rw [(foldl_updCol_notmem f cols (updCol t c f) c hnotin).1,
        getCol_updCol_self t c f h]
    · have hmem' : c ∈ cols := by
        rcases List.mem_cons.mp hmem with hh | hh
        · exact absurd hh hx
        · exact hh
      have hnd' : cols.Nodup := (List.nodup_cons.mp hnd).2
      have h' : hasCol (updCol t x f) c = true := by rw [hasCol_updCol]; exact h
      rw [ih (updCol t x f) h' hmem' hnd', getCol_updCol_ne _ _ _ _ hx]

/-- In impute_and_cast, a present numeric column is exactly the numeric
imputation of the original column (the categorical pass never touches
it). -/
theorem impute_getCol (t : Table) (c : String) (hc : c ∈ numeric_cols)
    (h : hasCol t c = true) :
    getCol (impute_and_cast t) c = imputeNumCol (getCol t c) := by
  unfold impute_and_cast
  have hnotcat : c ∉ cat_cols := by fin_cases hc <;> decide
  rw [(foldl_updCol_notmem castCatCol cat_cols _ c hnotcat).1]
  exact foldl_updCol_mem imputeNumCol numeric_cols t c h hc (by decide)

theorem getD_map_lt {α β : Type} (f : α → β) (l : List α) (i : Nat) (hi : i < l.length)
    (d : α) (d' : β) : (l.map f).getD i d' = f (l.getD i d) := by
  rw [List.getD_eq_getElem?_getD, List.getD_eq_getElem?_getD, List.getElem?_map,
    List.getElem?_eq_getElem hi]
  simp

theorem toNumCell_cases (c : Cell) : toNumCell c = .na ∨ ∃ q, toNumCell c = .float q := by
  cases c with
  | int z => exact Or.inr ⟨(z : Rat), rfl⟩
  | float q => exact Or.inr ⟨q, rfl⟩
  | str s =>
    cases hq : decChars? s.data with
    | none => exact Or.inl (by simp [toNumCell, hq])
    | some q => exact Or.inr ⟨q, by simp [toNumCell, hq]⟩
  | dt d => exact Or.inl rfl
  | date y m d => exact Or.inl rfl
  | na => exact Or.inl rfl

theorem cellNums_nil_of_all_na (l : List Cell) (h : ∀ x ∈ l, x = Cell.na) :
    cellNums l = [] := by
  induction l with
  | nil => rfl
  | cons x l ih =>
    have hx := h x (List.mem_cons_self x l)
    subst hx
    simpa [cellNums] using ih (fun y hy => h y (List.mem_cons_of_mem _ hy))

theorem map_fill_of_all_na (l : List Cell) (h : ∀ y ∈ l, y = Cell.na) (r : Cell) :
    l.map (fun c => if c = Cell.na then r else c) = List.replicate l.length r := by
  induction l with
  | nil => rfl
  | cons x l ih =>
    have hx := h x (List.mem_cons_self x l)
    subst hx
    have ih' := ih (fun y hy => h y (List.mem_cons_of_mem _ hy))
    simp [List.replicate, ih']

/-- C4: for a present numeric column, impute_and_cast coerces it to
numeric and: when the median m over the non-missing entries exists, the
result has no missing entries, every previously missing (or unparseable)
entry equals m and every other entry keeps its coerced numeric value; when
every entry is missing, the whole column becomes zero. -/
theorem imputation_fills_median (t : Table) (c : String) (hc : c ∈ numeric_cols)
    (h : hasCol t c = true) :
    (getCol (impute_and_cast t) c).length = (getCol t c).length ∧
    (∀ m, medianQ (cellNums ((getCol t c).map toNumCell)) = some m →
      (∀ i, i < (getCol t c).length →
        (((getCol t c).map toNumCell).getD i .na = .na →
          (getCol (impute_and_cast t) c).getD i .na = .float m) ∧
        ∀ v, ((getCol t c).map toNumCell).getD i .na = .float v →
          (getCol (impute_and_cast t) c).getD i .na = .float v) ∧
      ∀ x ∈ getCol (impute_and_cast t) c, x ≠ .na) ∧
    ((∀ x ∈ getCol t c, toNumCell x = .na) →
      getCol (impute_and_cast t) c = List.replicate (getCol t c).length (.float 0)) := by
  rw [impute_getCol t c hc h]
  refine ⟨by simp [imputeNumCol], ?_, ?_⟩
  · intro m hm
    constructor
    · intro i hi
      have hlen : i < ((getCol t c).map toNumCell).length := by simpa using hi
      constructor
      · intro hna
        unfold imputeNumCol
        rw [getD_map_lt _ _ i hlen Cell.na Cell.na, hna]
        simp [hm]
      · intro v hv
        unfold imputeNumCol
        rw [getD_map_lt _ _ i hlen Cell.na Cell.na, hv]
        simp
    · intro x hx
      unfold imputeNumCol at hx
      rw [List.mem_map] at hx
      obtain ⟨y, hy, hxy⟩ := hx
      rw [List.mem_map] at hy
      obtain ⟨z, _hz, hzy⟩ := hy
      rcases toNumCell_cases z with hna | ⟨q, hq⟩
      · rw [← hxy, ← hzy, hna]; simp
      · rw [← hxy, ← hzy, hq]; simp
  · intro hall
    have hys : ∀ y ∈ (getCol t c).map toNumCell, y = Cell.na := by
      intro y hy
      rw [List.mem_map] at hy
      obtain ⟨z, hz, hzy⟩ := hy
      rw [← hzy]; exact hall z hz
    have hnums : cellNums ((getCol t c).map toNumCell) = [] :=
      cellNums_nil_of_all_na _ hys
    have hmed : (medianQ []).getD 0 = 0 := rfl
    simp only [imputeNumCol]
    rw [hnums, hmed, map_fill_of_all_na _ hys]
    simp

theorem imputation_fills_median_witness :
    (getCol (impute_and_cast tC4w) "temp").getD 1 .na = .float 6 := by
  have h := imputation_fills_median tC4w "temp" (by decide) (by rfl)
  exact ((h.2.1 6 (by with_unfolding_all rfl)).1 1 (by decide)).1 (by rfl)

/-! ### Claim C6 -/

/-- C6: when the season column is present every row of season_label is the
image of the code under the fixed map (1 spring, 2 summer, 3 fall,
4 winter) with "unknown" for any other integer code, and weather_label
likewise follows its fixed four-entry map with "unknown" elsewhere. -/
theorem label_maps (t t' : Table) (h : feature_engineering t = .ok t') :
    (hasCol t "season" = true →
      getCol t' "season_label" = (getCol t "season").map (mapCode season_map)) ∧
    (hasCol t "weather" = true →
      getCol t' "weather_label" = (getCol t "weather").map (mapCode weather_map)) ∧
    (∀ z : Int, mapCode season_map (.int z)
      = .str (if z = 1 then "spring" else if z = 2 then "summer" else if z = 3 then "fall"
          else if z = 4 then "winter" else "unknown")) ∧
    (∀ z : Int, mapCode weather_map (.int z)
      = .str (if z = 1 then "clear" else if z = 2 then "mist/cloudy"
          else if z = 3 then "light_precip" else if z = 4 then "heavy_precip"
          else "unknown")) := by
  obtain ⟨t2, t3, e1, e2, e3⟩ := fe_ok_cases t t' h
  refine ⟨?_, ?_, ?_, ?_⟩
  · intro hs
    have d := fe_datetime_preserves t "season" (by decide) (by decide) (by decide)
      (by decide) (by decide) (by decide)
    have hs1 : hasCol (fe_datetime t) "season" = true := by rw [d.2]; exact hs
    have hstep : fe_season (fe_datetime t)
        = mapColInto (fe_datetime t) "season" "season_label" (mapCode season_map) := by
      unfold fe_season; rw [if_pos hs1]
    have hval : getCol (fe_season (fe_datetime t)) "season_label"
        = (getCol t "season").map (mapCode season_map) := by
      rw [hstep, getCol_mapColInto_self, d.1]
    have w := fe_weather_preserves (fe_season (fe_datetime t)) "season_label" (by decide)
    have cpres := fe_count_preserves (fe_weather (fe_season (fe_datetime t)))
      "season_label" (by decide)
    have p1 := fe_temp_preserves _ _ "season_label" e1 (by decide)
    have p2 := fe_atemp_preserves _ _ "season_label" e2 (by decide)
    have hm := fe_humidity_preserves t3 "season_label" (by decide)
    have p3 := fe_windspeed_preserves _ _ "season_label" e3 (by decide) (by decide)
    rw [p3.1, hm.1, p2.1, p1.1, cpres.1, w.1, hval]
  · intro hw
    have d := fe_datetime_preserves t "weather" (by decide) (by decide) (by decide)
      (by decide) (by decide) (by decide)
    have s := fe_season_preserves (fe_datetime t) "weather" (by decide)
    have hw1 : hasCol (fe_season (fe_datetime t)) "weather" = true := by
      rw [s.2, d.2]; exact hw
    have hstep : fe_weather (fe_season (fe_datetime t))
        = mapColInto (fe_season (fe_datetime t)) "weather" "weather_label"
            (mapCode weather_map) := by
      unfold fe_weather; rw [if_pos hw1]
    have hval : getCol (fe_weather (fe_season (fe_datetime t))) "weather_label"
        = (getCol t "weather").map (mapCode weather_map) := by
      rw [hstep, getCol_mapColInto_self, s.1, d.1]
    have cpres := fe_count_preserves (fe_weather (fe_season (fe_datetime t)))
      "weather_label" (by decide)
    have p1 := fe_temp_preserves _ _ "weather_label" e1 (by decide)
    have p2 := fe_atemp_preserves _ _ "weather_label" e2 (by decide)
    have hm := fe_humidity_preserves t3 "weather_label" (by decide)
    have p3 := fe_windspeed_preserves _ _ "weather_label" e3 (by decide) (by decide)
    rw [p3.1, hm.1, p2.1, p1.1, cpres.1, hval]
  · intro z
    by_cases h1 : z = 1
    · subst h1; rfl
    by_cases h2 : z = 2
    · subst h2; rfl
    by_cases h3 : z = 3
    · subst h3; rfl
    by_cases h4 : z = 4
    · subst h4; rfl
    have b1 : (z == (1 : Int)) = false := beq_eq_false_iff_ne.mpr h1
    have b2 : (z == (2 : Int)) = false := beq_eq_false_iff_ne.mpr h2
    have b3 : (z == (3 : Int)) = false := beq_eq_false_iff_ne.mpr h3
    have b4 : (z == (4 : Int)) = false := beq_eq_false_iff_ne.mpr h4
    simp [mapCode, season_map, List.lookup, b1, b2, b3, b4, h1, h2, h3, h4]
  · intro z
    by_cases h1 : z = 1
    · subst h1; rfl
    by_cases h2 : z = 2
    · subst h2; rfl
    by_cases h3 : z = 3
    · subst h3; rfl
    by_cases h4 : z = 4
    · subst h4; rfl
    have b1 : (z == (1 : Int)) = false := beq_eq_false_iff_ne.mpr h1
    have b2 : (z == (2 : Int)) = false := beq_eq_false_iff_ne.mpr h2
    have b3 : (z == (3 : Int)) = false := beq_eq_false_iff_ne.mpr h3
    have b4 : (z == (4 : Int)) = false := beq_eq_false_iff_ne.mpr h4
    simp [mapCode, weather_map, List.lookup, b1, b2, b3, b4, h1, h2, h3, h4]

theorem label_maps_witness :
    getCol tC6wOut "season_label" = (getCol tC6w "season").map (mapCode season_map) :=
  (label_maps tC6w tC6wOut (by rfl)).1 (by rfl)

/-! ### Claim C10 -/

theorem writeCSV_lookupAux (l : List (String × List Cell)) (c : String)
    (h : hasColAux c l = true) :
    List.lookup c (l.map (fun p => (p.1, p.2.map cellText)))
      = some ((getColAux c l).map cellText) := by
  induction l with
  | nil => simp [hasColAux] at h
  | cons p l ih =>
    by_cases hp : p.1 = c
    · simp [List.lookup, getColAux, beq_iff_eq, hp]
    · have h' : hasColAux c l = true := by
        simp only [hasColAux, Bool.or_eq_true, beq_iff_eq] at h
        rcases h with hh | hh
        · exact absurd hh hp
        · exact hh
      have hb : (c == p.1) = false := beq_eq_false_iff_ne.mpr (Ne.symm hp)
      simp [List.lookup, getColAux, beq_iff_eq, hp, ih h', hb]

/-- The persisted artifact holds the serialised cells of every present
column. -/
theorem writeCSV_lookup (u : Table) (c : String) (h : hasCol u c = true) :
    List.lookup c (writeCSV u) = some ((getCol u c).map cellText) :=
  writeCSV_lookupAux u.cols c h

/-- C10: when the post-imputation table has a windspeed column and no
windspeed_category column, a successful pipeline run rewrites the
windspeed column itself — the output column is the zero-adjusted column
(zeros replaced by the pre-replacement median), and the persisted artifact
serialises exactly those adjusted values, so the original zero readings do
not reach the artifact. -/
theorem windspeed_rewritten_in_artifact (t u : Table)
    (hw : hasCol (impute_and_cast (basic_clean t)) "windspeed" = true)
    (hc : hasCol (impute_and_cast (basic_clean t)) "windspeed_category" = false)
    (h : processPipeline t = .ok u) :
    getCol u "windspeed"
      = zeroAdjusted (getCol (impute_and_cast (basic_clean t)) "windspeed") ∧
    List.lookup "windspeed" (writeCSV u)
      = some ((zeroAdjusted
          (getCol (impute_and_cast (basic_clean t)) "windspeed")).map cellText) := by
  obtain ⟨t2, t3, e1, e2, e3⟩ := fe_ok_cases (impute_and_cast (basic_clean t)) u h
  have pp := prefix_preserves (impute_and_cast (basic_clean t)) "windspeed" (by decide)
    (by decide) (by decide) (by decide) (by decide) (by decide) (by decide) (by decide)
    (by decide)
  have p1 := fe_temp_preserves _ _ "windspeed" e1 (by decide)
  have p2 := fe_atemp_preserves _ _ "windspeed" e2 (by decide)
  have ph := fe_humidity_preserves t3 "windspeed" (by decide)
  have ppc := prefix_preserves (impute_and_cast (basic_clean t)) "windspeed_category"
    (by decide) (by decide) (by decide) (by decide) (by decide) (by decide) (by decide)
    (by decide) (by decide)
  have p1c := fe_temp_preserves _ _ "windspeed_category" e1 (by decide)
  have p2c := fe_atemp_preserves _ _ "windspeed_category" e2 (by decide)
  have phc := fe_humidity_preserves t3 "windspeed_category" (by decide)
  have hw4 : hasCol (fe_humidity t3) "windspeed" = true := by
    rw [ph.2, p2.2, p1.2, pp.2]; exact hw
  have hc4 : hasCol (fe_humidity t3) "windspeed_category" = false := by
    rw [phc.2, p2c.2, p1c.2, ppc.2]; exact hc
  have hws4 : getCol (fe_humidity t3) "windspeed"
      = getCol (impute_and_cast (basic_clean t)) "windspeed" := by
    rw [ph.1, p2.1, p1.1, pp.1]
  unfold fe_windspeed at e3
  rw [if_pos (by rw [hw4, hc4]; rfl)] at e3
  cases hq : qcut (zeroAdjusted (getCol (fe_humidity t3) "windspeed")) 3
      ["low", "medium", "high"] with
  | error e => rw [hq] at e3; simp [Except.map] at e3
  | ok v =>
    rw [hq] at e3
    simp only [Except.map, Except.ok.injEq] at e3
    subst e3
    have hval : getCol (setCol (setCol (fe_humidity t3) "windspeed"
        (zeroAdjusted (getCol (fe_humidity t3) "windspeed"))) "windspeed_category" v)
          "windspeed"
        = zeroAdjusted (getCol (impute_and_cast (basic_clean t)) "windspeed") := by
      rw [getCol_setCol_ne _ _ _ _ (by decide), getCol_setCol_self, hws4]
    refine ⟨hval, ?_⟩
    have hhas : hasCol (setCol (setCol (fe_humidity t3) "windspeed"
        (zeroAdjusted (getCol (fe_humidity t3) "windspeed"))) "windspeed_category" v)
          "windspeed" = true := by
      rw [hasCol_setCol_ne _ _ _ _ (by decide), hasCol_setCol_self]
    rw [writeCSV_lookup _ _ hhas, hval]

theorem windspeed_rewritten_in_artifact_witness :
    getCol tC10wOut "windspeed"
      = zeroAdjusted (getCol (impute_and_cast (basic_clean tC10w)) "windspeed") :=
  (windspeed_rewritten_in_artifact tC10w tC10wOut (by with_unfolding_all rfl)
    (by with_unfolding_all rfl) (by with_unfolding_all rfl)).1

/-! ### Digit-text lemmas for the CSV round trip -/

theorem charVal_digitChar (n : Nat) (h : n < 10) : charVal? (digitChar n) = some n := by
  interval_cases n <;> rfl

theorem natToDigitsAux_spec (fuel : Nat) : ∀ n, n < fuel →
    natToDigitsAux fuel n ≠ [] ∧
    (∀ c ∈ natToDigitsAux fuel n, ∃ k, k < 10 ∧ c = digitChar k) ∧
    ∀ a, (natToDigitsAux fuel n).foldl digitsAux (some a)
      = some (a * 10 ^ (natToDigitsAux fuel n).length + n) := by
  induction fuel with
  | zero => intro n hn; omega
  | succ fuel ih =>
    intro n hn
    by_cases h10 : n < 10
    · refine ⟨by simp [natToDigitsAux, h10], ?_, ?_⟩
      · intro c hc
        simp [natToDigitsAux, h10] at hc
        exact ⟨n, h10, hc⟩
      · intro a
        simp [natToDigitsAux, h10, List.foldl, digitsAux, charVal_digitChar n h10]
    · have hd := Nat.div_lt_self (by omega : 0 < n) (by omega : 1 < 10)
      have hrec : n / 10 < fuel := by omega
      obtain ⟨hne, hall, hfold⟩ := ih (n / 10) hrec
      refine ⟨by simp [natToDigitsAux, h10], ?_, ?_⟩
      · intro c hc
        simp only [natToDigitsAux, if_neg h10] at hc
        rcases List.mem_append.mp hc with hc | hc
        · exact hall c hc
        · simp at hc
          exact ⟨n % 10, Nat.mod_lt _ (by omega), hc⟩
      · intro a
        simp only [natToDigitsAux, if_neg h10]
        rw [List.foldl_append, hfold a, List.length_append]
        simp only [List.foldl, digitsAux, charVal_digitChar (n % 10) (Nat.mod_lt _ (by omega)),
          List.length_cons, List.length_nil]
        refine congrArg some ?_
        simp only [Nat.zero_add]
        have hdm := Nat.div_add_mod n 10
        calc (a * 10 ^ (natToDigitsAux fuel (n / 10)).length + n / 10) * 10 + n % 10
            = a * (10 ^ (natToDigitsAux fuel (n / 10)).length * 10)
              + (10 * (n / 10) + n % 10) := by ring
          _ = a * 10 ^ ((natToDigitsAux fuel (n / 10)).length + 1) + n := by
              rw [hdm, pow_succ]

theorem natToDigits_ne_nil (n : Nat) : natToDigits n ≠ [] :=
  (natToDigitsAux_spec (n + 1) n (by omega)).1

theorem natToDigits_digits (n : Nat) :
    ∀ c ∈ natToDigits n, ∃ k, k < 10 ∧ c = digitChar k :=
  (natToDigitsAux_spec (n + 1) n (by omega)).2.1

theorem digitsToNat?_natToDigits (n : Nat) : digitsToNat? (natToDigits n) = some n := by
  unfold digitsToNat?
  rw [if_neg (by simp [List.isEmpty_iff, natToDigits_ne_nil n])]
  unfold natToDigits
  rw [(natToDigitsAux_spec (n + 1) n (by omega)).2.2 0]
  simp

theorem digitsAux_none_char (x : Option Nat) (c : Char) (h : charVal? c = none) :
    digitsAux x c = none := by
  cases x <;> simp [digitsAux, h]

theorem foldl_digitsAux_none (l : List Char) : l.foldl digitsAux none = none := by
  induction l with
  | nil => rfl
  | cons c l ih =>
    have hstep : digitsAux none c = none := by
      cases hv : charVal? c <;> simp [digitsAux, hv]
    simp [List.foldl, hstep, ih]

theorem digitsToNat?_append_none (A : List Char) (c : Char) (B : List Char)
    (h : charVal? c = none) : digitsToNat? (A ++ c :: B) = none := by
  unfold digitsToNat?
  rw [if_neg (by simp)]
  rw [List.foldl_append]
  simp only [List.foldl]
  rw [digitsAux_none_char _ _ h, foldl_digitsAux_none]

theorem splitOnChar_ne_nil (sep : Char) (cs : List Char) : splitOnChar sep cs ≠ [] := by
  cases cs with
  | nil => simp [splitOnChar]
  | cons c cs =>
    simp only [splitOnChar]
    cases h : splitOnChar sep cs with
    | nil => simp
    | cons hh tl => by_cases hc : c = sep <;> simp [hc]

theorem splitOnChar_nosep (sep : Char) (cs : List Char) (h : ∀ c ∈ cs, c ≠ sep) :
    splitOnChar sep cs = [cs] := by
  induction cs with
  | nil => rfl
  | cons c cs ih =>
    have hc : c ≠ sep := h c (List.mem_cons_self c cs)
    have ih' : splitOnChar sep cs = [cs] := ih (fun x hx => h x (List.mem_cons_of_mem _ hx))
    simp [splitOnChar, ih', hc]

theorem splitOnChar_append (sep : Char) (A B : List Char) (h : ∀ c ∈ A, c ≠ sep) :
    splitOnChar sep (A ++ sep :: B) = A :: splitOnChar sep B := by
  induction A with
  | nil =>
    simp only [List.nil_append, splitOnChar]
    cases hb : splitOnChar sep B with
    | nil => exact absurd hb (splitOnChar_ne_nil sep B)
    | cons hh tl => simp
  | cons a A ih =>
    have ha : a ≠ sep := h a (List.mem_cons_self a A)
    have ih' := ih (fun x hx => h x (List.mem_cons_of_mem _ hx))
    simp only [List.cons_append, splitOnChar, ih']
    simp [ha]
    rw [ih']

theorem splitOnChar_triple (sep : Char) (A B C : List Char)
    (hA : ∀ c ∈ A, c ≠ sep) (hB : ∀ c ∈ B, c ≠ sep) (hC : ∀ c ∈ C, c ≠ sep) :
    splitOnChar sep (A ++ (sep :: (B ++ (sep :: C)))) = [A, B, C] := by
  rw [splitOnChar_append _ _ _ hA, splitOnChar_append _ _ _ hB, splitOnChar_nosep _ _ hC]

theorem digitChar_ne_of_none (k : Nat) (hk : k < 10) (sep : Char)
    (hsep : charVal? sep = none) : digitChar k ≠ sep := by
  intro h
  rw [← h, charVal_digitChar k hk] at hsep
  cases hsep

theorem natToDigits_ne_sep (n : Nat) (sep : Char) (hsep : charVal? sep = none) :
    ∀ c ∈ natToDigits n, c ≠ sep := by
  intro c hc
  obtain ⟨k, hk, hck⟩ := natToDigits_digits n c hc
  rw [hck]
  exact digitChar_ne_of_none k hk sep hsep

theorem intToChars_ne_sep (z : Int) (sep : Char) (hsep : charVal? sep = none)
    (hdash : sep ≠ '-') : ∀ c ∈ intToChars z, c ≠ sep := by
  intro c hc
  unfold intToChars at hc
  split at hc
  · rcases List.mem_cons.mp hc with hh | hh
    · rw [hh]; exact Ne.symm hdash
    · exact natToDigits_ne_sep _ sep hsep c hh
  · exact natToDigits_ne_sep _ sep hsep c hc

theorem dateChars_ne_sep (y m d : Nat) (sep : Char) (hsep : charVal? sep = none)
    (hdash : sep ≠ '-') : ∀ c ∈ dateChars y m d, c ≠ sep := by
  intro c hc
  unfold dateChars at hc
  rcases List.mem_append.mp hc with h1 | h1
  · exact natToDigits_ne_sep y sep hsep c h1
  · rcases List.mem_cons.mp h1 with h2 | h2
    · rw [h2]; exact Ne.symm hdash
    · rcases List.mem_append.mp h2 with h3 | h3
      · exact natToDigits_ne_sep m sep hsep c h3
      · rcases List.mem_cons.mp h3 with h4 | h4
        · rw [h4]; exact Ne.symm hdash
        · exact natToDigits_ne_sep d sep hsep c h4

theorem timeChars_ne_sep (h mi s : Nat) (sep : Char) (hsep : charVal? sep = none)
    (hcolon : sep ≠ ':') : ∀ c ∈ timeChars h mi s, c ≠ sep := by
  intro c hc
  unfold timeChars at hc
  rcases List.mem_append.mp hc with h1 | h1
  · exact natToDigits_ne_sep h sep hsep c h1
  · rcases List.mem_cons.mp h1 with h2 | h2
    · rw [h2]; exact Ne.symm hcolon
    · rcases List.mem_append.mp h2 with h3 | h3
      · exact natToDigits_ne_sep mi sep hsep c h3
      · rcases List.mem_cons.mp h3 with h4 | h4
        · rw [h4]; exact Ne.symm hcolon
        · exact natToDigits_ne_sep s sep hsep c h4

theorem natToDigits_head_digit (n : Nat) :
    ∃ k rest, k < 10 ∧ natToDigits n = digitChar k :: rest := by
  cases hc : natToDigits n with
  | nil => exact absurd hc (natToDigits_ne_nil n)
  | cons c rest =>
    obtain ⟨k, hk, hck⟩ := natToDigits_digits n c (by rw [hc]; exact List.mem_cons_self _ _)
    exact ⟨k, rest, hk, by rw [hck]⟩

theorem charsToInt?_natToDigits (n : Nat) : charsToInt? (natToDigits n) = some (n : Int) := by
  obtain ⟨k, rest, hk, heq⟩ := natToDigits_head_digit n
  rw [heq]
  simp only [charsToInt?]
  rw [if_neg (digitChar_ne_of_none k hk '-' (by rfl))]
  rw [← heq, digitsToNat?_natToDigits n]
  rfl

theorem charsToInt?_intToChars (z : Int) : charsToInt? (intToChars z) = some z := by
  unfold intToChars
  split
  · rename_i hneg
    simp only [charsToInt?, if_pos rfl]
    rw [digitsToNat?_natToDigits]
    show some (-(Int.natAbs z : Int)) = some z
    congr 1
    omega
  · rename_i hpos
    rw [charsToInt?_natToDigits]
    congr 1
    omega

theorem digitsToNat?_cons_append_none (x : Char) (rest : List Char)
    (c : Char) (B : List Char) (hc : charVal? c = none) :
    digitsToNat? (x :: (rest ++ c :: B)) = none := by
  rw [← List.cons_append]
  exact digitsToNat?_append_none _ c _ hc

theorem charsToInt?_num_sep_none (n : Nat) (c : Char) (B : List Char)
    (hcv : charVal? c = none) :
    charsToInt? (natToDigits n ++ c :: B) = none := by
  obtain ⟨k, rest, hk, heq⟩ := natToDigits_head_digit n
  rw [heq, List.cons_append]
  simp only [charsToInt?]
  rw [if_neg (digitChar_ne_of_none k hk '-' (by rfl))]
  rw [digitsToNat?_cons_append_none _ rest c B hcv]
  rfl

theorem charsToInt?_int_sep_none (z : Int) (c : Char) (B : List Char)
    (hcv : charVal? c = none) :
    charsToInt? (intToChars z ++ c :: B) = none := by
  unfold intToChars
  split
  · simp only [List.cons_append, charsToInt?, if_pos rfl]
    rw [digitsToNat?_append_none _ c _ hcv]
    rfl
  · exact charsToInt?_num_sep_none _ c B hcv

theorem charsToInt?_float_none (q : Rat) : charsToInt? (cellChars (.float q)) = none := by
  simp only [cellChars]
  split
  · rw [show (['.', '0'] : List Char) = '.' :: ['0'] from rfl]
    exact charsToInt?_int_sep_none q.num '.' ['0'] (by rfl)
  · exact charsToInt?_int_sep_none q.num '/' (natToDigits q.den) (by rfl)

theorem charsToInt?_dateChars (y m d : Nat) : charsToInt? (dateChars y m d) = none := by
  unfold dateChars
  exact charsToInt?_num_sep_none y '-' _ (by rfl)

theorem decChars?_int_dot_zero (z : Int) :
    decChars? (intToChars z ++ '.' :: ['0']) = some ((z : Rat)) := by
  have hs : splitOnChar '.' (intToChars z ++ '.' :: ['0']) = [intToChars z, ['0']] := by
    rw [splitOnChar_append '.' _ _ (intToChars_ne_sep z '.' (by rfl) (by decide)),
      splitOnChar_nosep '.' ['0'] (by decide)]
  unfold decChars?
  rw [hs]
  show decimalVal? (intToChars z) ['0'] = some ((z : Rat))
  unfold decimalVal?
  rw [charsToInt?_intToChars]
  have hd : digitsToNat? ['0'] = some 0 := rfl
  rw [hd]
  by_cases hz : z < 0
  · have hh : (intToChars z).head? = some '-' := by
      unfold intToChars
      rw [if_pos hz]
      rfl
    have hcast : ((z.natAbs : Nat) : Rat) = -((z : Int) : Rat) := by
      rw [Int.cast_natAbs]
      have habs : |z| = -z := abs_of_neg hz
      exact_mod_cast congrArg (fun w => ((w : Int) : Rat)) habs
    simp [hh, hcast]
  · have hne : (intToChars z).head? ≠ some '-' := by
      obtain ⟨k, rest, hk, heq⟩ := natToDigits_head_digit z.natAbs
      unfold intToChars
      rw [if_neg hz, heq]
      intro hcon
      exact digitChar_ne_of_none k hk '-' (by rfl) (Option.some.inj hcon)
    have hcast : ((z.natAbs : Nat) : Rat) = ((z : Int) : Rat) := by
      rw [Int.cast_natAbs]
      have habs : |z| = z := abs_of_nonneg (not_lt.mp hz)
      exact_mod_cast congrArg (fun w => ((w : Int) : Rat)) habs
    simp [hne, hcast]

theorem rat_num_cast_of_den_one (q : Rat) (hden : q.den = 1) : ((q.num : Int) : Rat) = q := by
  conv_rhs => rw [← Rat.num_div_den q]
  rw [hden]
  simp

theorem floatChars?_cellChars (q : Rat) : floatChars? (cellChars (.float q)) = some q := by
  simp only [cellChars]
  split
  · rename_i hden
    have hsl : splitOnChar '/' (intToChars q.num ++ ['.', '0'])
        = [intToChars q.num ++ ['.', '0']] := by
      apply splitOnChar_nosep
      intro c hc
      rcases List.mem_append.mp hc with h1 | h1
      · exact intToChars_ne_sep q.num '/' (by rfl) (by decide) c h1
      · rcases List.mem_cons.mp h1 with h2 | h2
        · rw [h2]; decide
        · rcases List.mem_cons.mp h2 with h3 | h3
          · rw [h3]; decide
          · cases h3
    unfold floatChars?
    rw [hsl]
    simp [decChars?_int_dot_zero, rat_num_cast_of_den_one q hden]
  · have hsl : splitOnChar '/' (intToChars q.num ++ '/' :: natToDigits q.den)
        = [intToChars q.num, natToDigits q.den] := by
      rw [splitOnChar_append '/' _ _ (intToChars_ne_sep q.num '/' (by rfl) (by decide)),
        splitOnChar_nosep '/' _ (natToDigits_ne_sep q.den '/' (by rfl))]
    unfold floatChars?
    rw [hsl]
    simp only [charsToInt?_intToChars, digitsToNat?_natToDigits]
    rw [if_neg q.den_nz]
    rw [Rat.num_div_den q]

theorem decChars?_dateChars (y m d : Nat) : decChars? (dateChars y m d) = none := by
  have hs : splitOnChar '.' (dateChars y m d) = [dateChars y m d] :=
    splitOnChar_nosep '.' _ (dateChars_ne_sep y m d '.' (by rfl) (by decide))
  unfold decChars?
  rw [hs]
  simp [charsToInt?_dateChars]

theorem floatChars?_dateChars (y m d : Nat) : floatChars? (dateChars y m d) = none := by
  have hs : splitOnChar '/' (dateChars y m d) = [dateChars y m d] :=
    splitOnChar_nosep '/' _ (dateChars_ne_sep y m d '/' (by rfl) (by decide))
  unfold floatChars?
  rw [hs]
  simp [decChars?_dateChars]

theorem parseDate_dateChars (y m d : Nat) :
    parseDateChars? (dateChars y m d) = some (y, m, d) := by
  unfold parseDateChars? dateChars
  rw [splitOnChar_triple '-' _ _ _ (natToDigits_ne_sep y '-' (by rfl))
    (natToDigits_ne_sep m '-' (by rfl)) (natToDigits_ne_sep d '-' (by rfl))]
  simp [digitsToNat?_natToDigits]

theorem parseTime_timeChars (h mi s : Nat) :
    parseTimeChars? (timeChars h mi s) = some (h, mi, s) := by
  unfold parseTimeChars? timeChars
  rw [splitOnChar_triple ':' _ _ _ (natToDigits_ne_sep h ':' (by rfl))
    (natToDigits_ne_sep mi ':' (by rfl)) (natToDigits_ne_sep s ':' (by rfl))]
  simp [digitsToNat?_natToDigits]

theorem parseDT_dtChars (d : DateTime) : parseDTChars? (dtChars d) = some d := by
  obtain ⟨y, mo, dd, hh, mi, ss⟩ := d
  unfold parseDTChars? dtChars
  rw [splitOnChar_append ' ' _ _ (dateChars_ne_sep _ _ _ ' ' (by rfl) (by decide)),
    splitOnChar_nosep ' ' _ (timeChars_ne_sep _ _ _ ' ' (by rfl) (by decide))]
  simp [parseDate_dateChars, parseTime_timeChars]

/-! ### Claim C8: column kinds that survive the artifact round trip -/

theorem cellChars_float_ne_nil (q : Rat) : cellChars (.float q) ≠ [] := by
  simp only [cellChars]
  split
  · simp
  · simp

theorem dateChars_ne_nil (y m d : Nat) : dateChars y m d ≠ [] := by
  unfold dateChars
  simp [natToDigits_ne_nil y]

theorem hasColAux_contains (l : List (String × List Cell)) (c : String) :
    hasColAux c l = (l.map Prod.fst).contains c := by
  induction l with
  | nil => rfl
  | cons p l ih =>
    by_cases hp : p.1 = c
    · simp [hasColAux, List.contains, beq_iff_eq, hp]
    · have h1 : (p.1 == c) = false := beq_eq_false_iff_ne.mpr hp
      have h2 : (c == p.1) = false := beq_eq_false_iff_ne.mpr (Ne.symm hp)
      simp [hasColAux, List.contains, h1, h2, ih]

theorem all_map_general {α β : Type} (f : α → β) (l : List α) (p : β → Bool) :
    (l.map f).all p = l.all (fun a => p (f a)) := by
  induction l with
  | nil => rfl
  | cons a l ih => simp [List.all_cons, ih]

theorem strMk_eq_empty_iff (l : List Char) : ((⟨l⟩ : String) = "") ↔ l = [] := by
  constructor
  · intro h
    have := congrArg String.data h
    simpa using this
  · intro h
    rw [h]

theorem cellText_data (c : Cell) : (cellText c).data = cellChars c := rfl

theorem charsToInt?_float_text_none (q : Rat) :
    charsToInt? ((cellText (.float q)).data) = none := charsToInt?_float_none q

theorem inferCol_int (cs : List Cell) (h : cs.all intCellB = true) :
    inferCol (cs.map cellText) = cs := by
  have hmem := List.all_eq_true.mp h
  have hcond : ((cs.map cellText).all
      (fun s => s = "" || (charsToInt? s.data).isSome)) = true := by
    rw [all_map_general, List.all_eq_true]
    intro c hc
    have hcb := hmem c hc
    cases c with
    | int z => simp [Function.comp, cellText_data, cellChars, charsToInt?_intToChars]
    | na => rfl
    | float q => simp [intCellB] at hcb
    | str s => simp [intCellB] at hcb
    | dt d => simp [intCellB] at hcb
    | date y m d => simp [intCellB] at hcb
  unfold inferCol
  rw [if_pos hcond, List.map_map]
  refine (List.map_congr_left ?_).trans (List.map_id cs)
  intro c hc
  have hcb := hmem c hc
  cases c with
  | int z => simp [Function.comp, cellText_data, cellChars, charsToInt?_intToChars]
  | na => rfl
  | float q => simp [intCellB] at hcb
  | str s => simp [intCellB] at hcb
  | dt d => simp [intCellB] at hcb
  | date y m d => simp [intCellB] at hcb

theorem inferCol_all_na (cs : List Cell) (hallna : ∀ c ∈ cs, c = Cell.na) :
    inferCol (cs.map cellText) = cs := by
  have hcond : ((cs.map cellText).all
      (fun s => s = "" || (charsToInt? s.data).isSome)) = true := by
    rw [all_map_general, List.all_eq_true]
    intro c hc
    rw [hallna c hc]
    rfl
  unfold inferCol
  rw [if_pos hcond, List.map_map]
  refine (List.map_congr_left ?_).trans (List.map_id cs)
  intro c hc
  rw [hallna c hc]
  rfl

theorem inferCol_float (cs : List Cell) (h : cs.all floatCellB = true) :
    inferCol (cs.map cellText) = cs := by
  have hmem := List.all_eq_true.mp h
  by_cases hex : ∃ q, Cell.float q ∈ cs
  · obtain ⟨q0, hq0⟩ := hex
    have hcond1 : ((cs.map cellText).all
        (fun s => s = "" || (charsToInt? s.data).isSome)) = false := by
      rw [all_map_general, List.all_eq_false]
      refine ⟨Cell.float q0, hq0, ?_⟩
      simp [Function.comp, cellText_data, strMk_eq_empty_iff, cellText,
        cellChars_float_ne_nil q0, charsToInt?_float_none q0]
    have hcond2 : ((cs.map cellText).all
        (fun s => s = "" || (floatChars? s.data).isSome)) = true := by
      rw [all_map_general, List.all_eq_true]
      intro c hc
      have hcb := hmem c hc
      cases c with
      | float q => simp [Function.comp, cellText_data, floatChars?_cellChars]
      | na => rfl
      | int z => simp [floatCellB] at hcb
      | str s => simp [floatCellB] at hcb
      | dt d => simp [floatCellB] at hcb
      | date y m d => simp [floatCellB] at hcb
    unfold inferCol
    rw [if_neg (by rw [hcond1]; exact Bool.false_ne_true), if_pos hcond2, List.map_map]
    refine (List.map_congr_left ?_).trans (List.map_id cs)
    intro c hc
    have hcb := hmem c hc
    cases c with
    | float q => simp [Function.comp, cellText_data, floatChars?_cellChars]
    | na => rfl
    | int z => simp [floatCellB] at hcb
    | str s => simp [floatCellB] at hcb
    | dt d => simp [floatCellB] at hcb
    | date y m d => simp [floatCellB] at hcb
  · have hallna : ∀ c ∈ cs, c = Cell.na := by
      intro c hc
      have hcb := hmem c hc
      cases c with
      | float q => exact absurd ⟨q, hc⟩ hex
      | na => rfl
      | int z => simp [floatCellB] at hcb
      | str s => simp [floatCellB] at hcb
      | dt d => simp [floatCellB] at hcb
      | date y m d => simp [floatCellB] at hcb
    exact inferCol_all_na cs hallna

theorem cellText_str (s : String) : cellText (.str s) = s := rfl

theorem inferCol_str (cs : List Cell) (h : cs.all safeStrCell = true) :
    inferCol (cs.map cellText) = cs := by
  have hmem := List.all_eq_true.mp h
  have hstr : ∀ s, Cell.str s ∈ cs →
      s.data.isEmpty = false ∧ charsToInt? s.data = none ∧ floatChars? s.data = none := by
    intro s hs
    have hcb := hmem _ hs
    simp only [safeStrCell, Bool.and_eq_true, Bool.not_eq_true',
      Option.isNone_iff_eq_none] at hcb
    exact ⟨hcb.1, hcb.2.1, hcb.2.2⟩
  have hne : ∀ s, Cell.str s ∈ cs → ¬(s = "") := by
    intro s hs hh
    have hemp := (hstr s hs).1
    rw [hh] at hemp
    simp at hemp
  by_cases hex : ∃ s, Cell.str s ∈ cs
  · obtain ⟨s0, hs0⟩ := hex
    have hcond1 : ((cs.map cellText).all
        (fun s => s = "" || (charsToInt? s.data).isSome)) = false := by
      rw [all_map_general, List.all_eq_false]
      refine ⟨Cell.str s0, hs0, ?_⟩
      simp [Function.comp, cellText_str, hne s0 hs0, (hstr s0 hs0).2.1]
    have hcond2 : ((cs.map cellText).all
        (fun s => s = "" || (floatChars? s.data).isSome)) = false := by
      rw [all_map_general, List.all_eq_false]
      refine ⟨Cell.str s0, hs0, ?_⟩
      simp [Function.comp, cellText_str, hne s0 hs0, (hstr s0 hs0).2.2]
    unfold inferCol
    rw [if_neg (by rw [hcond1]; exact Bool.false_ne_true),
      if_neg (by rw [hcond2]; exact Bool.false_ne_true), List.map_map]
    refine (List.map_congr_left ?_).trans (List.map_id cs)
    intro c hc
    have hcb := hmem c hc
    cases c with
    | str s => simp [Function.comp, cellText_str, hne s hc]
    | na => rfl
    | int z => simp [safeStrCell] at hcb
    | float q => simp [safeStrCell] at hcb
    | dt d => simp [safeStrCell] at hcb
    | date y m d => simp [safeStrCell] at hcb
  · exact inferCol_all_na cs (by
      intro c hc
      have hcb := hmem c hc
      cases c with
      | str s => exact absurd ⟨s, hc⟩ hex
      | na => rfl
      | int z => simp [safeStrCell] at hcb
      | float q => simp [safeStrCell] at hcb
      | dt d => simp [safeStrCell] at hcb
      | date y m d => simp [safeStrCell] at hcb)

theorem inferCol_date (cs : List Cell) (h : cs.all dateCellB = true) :
    inferCol (cs.map cellText) = cs.map dateTextCell := by
  have hmem := List.all_eq_true.mp h
  by_cases hex : ∃ y m d, Cell.date y m d ∈ cs
  · obtain ⟨y0, m0, d0, hq0⟩ := hex
    have hcond1 : ((cs.map cellText).all
        (fun s => s = "" || (charsToInt? s.data).isSome)) = false := by
      rw [all_map_general, List.all_eq_false]
      refine ⟨Cell.date y0 m0 d0, hq0, ?_⟩
      simp [cellText_data, cellText, cellChars, strMk_eq_empty_iff,
        dateChars_ne_nil y0 m0 d0, charsToInt?_dateChars]
    have hcond2 : ((cs.map cellText).all
        (fun s => s = "" || (floatChars? s.data).isSome)) = false := by
      rw [all_map_general, List.all_eq_false]
      refine ⟨Cell.date y0 m0 d0, hq0, ?_⟩
      simp [cellText_data, cellText, cellChars, strMk_eq_empty_iff,
        dateChars_ne_nil y0 m0 d0, floatChars?_dateChars]
    unfold inferCol
    rw [if_neg (by rw [hcond1]; exact Bool.false_ne_true),
      if_neg (by rw [hcond2]; exact Bool.false_ne_true), List.map_map]
    apply List.map_congr_left
    intro c hc
    have hcb := hmem c hc
    cases c with
    | date y m d =>
      simp [Function.comp, cellText, cellChars, dateTextCell, strMk_eq_empty_iff,
        dateChars_ne_nil y m d]
    | na => rfl
    | int z => simp [dateCellB] at hcb
    | float q => simp [dateCellB] at hcb
    | str s => simp [dateCellB] at hcb
    | dt d => simp [dateCellB] at hcb
  · have hallna : ∀ c ∈ cs, c = Cell.na := by
      intro c hc
      have hcb := hmem c hc
      cases c with
      | date y m d => exact absurd ⟨y, m, d, hc⟩ hex
      | na => rfl
      | int z => simp [dateCellB] at hcb
      | float q => simp [dateCellB] at hcb
      | str s => simp [dateCellB] at hcb
      | dt d => simp [dateCellB] at hcb
    rw [inferCol_all_na cs hallna]
    apply Eq.symm
    refine (List.map_congr_left ?_).trans (List.map_id cs)
    intro c hc
    rw [hallna c hc]
    rfl

theorem readDT_col (cs : List Cell) (h : cs.all dtCellB = true) :
    (cs.map cellText).map parseDTText = cs := by
  have hmem := List.all_eq_true.mp h
  rw [List.map_map]
  refine (List.map_congr_left ?_).trans (List.map_id cs)
  intro c hc
  have hcb := hmem c hc
  cases c with
  | dt d => simp [Function.comp, parseDTText, cellText_data, cellChars, parseDT_dtChars]
  | na => rfl
  | int z => simp [dtCellB] at hcb
  | float q => simp [dtCellB] at hcb
  | str s => simp [dtCellB] at hcb
  | date y m d => simp [dtCellB] at hcb

/-- C8 counterexample: a processed table need not contain a datetime
column (here the pipeline output for an input with only a season column),
and on such an artifact the report loader pd.read_csv(...,
parse_dates=["datetime"]) fails instead of reproducing the table, so the
round trip does not hold for every processed table. -/
theorem roundtrip_fails_without_datetime :
    processPipeline tNoDatetime = .ok tNoDatetimeOut ∧
    readCSV (writeCSV tNoDatetimeOut)
      = .error "Missing column provided to parse_dates: datetime" := by
  constructor
  · with_unfolding_all rfl
  · rfl

/-- C8 (amended): for a processed table that does contain a datetime
column and whose columns are of uniform cell kind with CSV-safe text
(text values that do not themselves read as numbers), writing the artifact
and reading it back with the report loader succeeds and reproduces the
table exactly — same column list, timestamps, integers, floats and text
values equal — except the date-only column, whose date values read back
as their date text. -/
theorem artifact_roundtrip (t : Table) (hd : hasCol t "datetime" = true)
    (hs : csvReadSafe t = true) :
    readCSV (writeCSV t)
      = .ok ⟨t.cols.map (fun p =>
          (p.1, if p.1 = "date" then p.2.map dateTextCell else p.2))⟩ := by
  have hnames : (writeCSV t).map Prod.fst = t.cols.map Prod.fst := by
    unfold writeCSV
    rw [List.map_map]
    apply List.map_congr_left
    intro p _hp
    rfl
  unfold readCSV
  rw [if_pos (by rw [hnames, ← hasColAux_contains]; exact hd)]
  congr 1
  unfold readTable writeCSV
  rw [List.map_map]
  congr 1
  apply List.map_congr_left
  intro p hp
  have hg : goodCol p.1 p.2 = true := List.all_eq_true.mp hs p hp
  simp only [Function.comp]
  by_cases h1 : p.1 = "datetime"
  · rw [goodCol, if_pos h1] at hg
    have hnd : ¬(("datetime" : String) = "date") := by decide
    simp [h1, hnd, readDT_col p.2 hg]
  · by_cases h2 : p.1 = "date"
    · rw [goodCol, if_neg h1, if_pos h2] at hg
      have hb : (p.1 == "datetime") = false := beq_eq_false_iff_ne.mpr h1
      simp [hb, h2, inferCol_date p.2 hg]
    · rw [goodCol, if_neg h1, if_neg h2] at hg
      have hb : (p.1 == "datetime") = false := beq_eq_false_iff_ne.mpr h1
      rw [Bool.or_eq_true, Bool.or_eq_true] at hg
      rcases hg with hk | hk | hk
      · simp [hb, h2, inferCol_int p.2 hk]
      · simp [hb, h2, inferCol_float p.2 hk]
      · simp [hb, h2, inferCol_str p.2 hk]

theorem artifact_roundtrip_witness :
    readCSV (writeCSV tRoundTrip)
      = .ok ⟨tRoundTrip.cols.map (fun p =>
          (p.1, if p.1 = "date" then p.2.map dateTextCell else p.2))⟩ :=
  artifact_roundtrip tRoundTrip (by rfl) (by with_unfolding_all decide)

/-! ### Claim C9 -/

/-- C9: when load_data is given both a local path and a (nonempty) URL,
the URL takes precedence — the source resolves to the URL and the result
is the same as with no path at all. -/
theorem url_wins (env : LoadEnv) (p u : String) (hu : u ≠ "") :
    resolveSource (some p) (some u) env.defaultInputExists = .url u ∧
    load_data env (some p) (some u) = load_data env none (some u) := by
  have ht : pyTruthy (some u) = true := by
    simp [pyTruthy, hu]
  constructor
  · simp [resolveSource, ht]
  · simp [load_data, resolveSource, ht]

theorem url_wins_witness :
    resolveSource (some "data/yulu_data.csv") (some "http://example.org/a.csv")
        envW.defaultInputExists
      = .url "http://example.org/a.csv" :=
  (url_wins envW "data/yulu_data.csv" "http://example.org/a.csv" (by decide)).1

end Yulu
